import Mathlib

/-!
Verification of the handoff poller (`jules_runner.py`).

The program is embedded shallowly:

* The filesystem is an association list from path strings to file contents.
* YAML values are modelled by `Val`: either a string scalar or a flat mapping
  from strings to strings (the only shapes the program's schema uses; the
  PyYAML parser is modelled by a faithful executable subset that handles a
  flat front-matter mapping with one level of nesting, plain and
  single-quoted scalars; inputs outside this fragment are rejected, which
  the program treats the same as a parse error).
* Clock reads (`datetime.now`) are explicit string parameters.
* The one fallible effect inside the dispatch `try` block (the file write of
  `handle_add_file`) is controlled by an `Option String` oracle: `some e`
  means the write raises an exception with text `e`.
-/

set_option maxRecDepth 100000

namespace Jules

/-- Association-list read: Python `dict.get(k)` / first file with this name. -/
def aget {α : Type} : List (String × α) → String → Option α
  | [], _ => none
  | (k', v) :: t, k => if k' = k then some v else aget t k

/-- Association-list write: Python `d[k] = v` (replace in place or append). -/
def aset {α : Type} : List (String × α) → String → α → List (String × α)
  | [], k, v => [(k, v)]
  | (k', v') :: t, k, v => if k' = k then (k, v) :: t else (k', v') :: aset t k v

/-- Association-list delete (removes every binding of the key). -/
def adel {α : Type} : List (String × α) → String → List (String × α)
  | [], _ => []
  | e :: t, k => if e.1 = k then adel t k else e :: adel t k

/-- Python `dict.get(k, d)`. -/
def agetD {α : Type} (m : List (String × α)) (k : String) (d : α) : α :=
  (aget m k).getD d

/-- Characters Python's `str.strip()` removes. -/
def pySpace (c : Char) : Bool :=
  c = ' ' || c = '\t' || c = '\n' || c = '\r' || c = Char.ofNat 11 || c = Char.ofNat 12

/-- Python `str.strip()` on a character list. -/
def stripChars (l : List Char) : List Char :=
  ((l.dropWhile pySpace).reverse.dropWhile pySpace).reverse

/-- Python `str.strip()`. -/
def pyStrip (s : String) : String := String.mk (stripChars s.data)

/-- Bool test that `p` is a leading segment of `s`. -/
def leadsWith : List Char → List Char → Bool
  | [], _ => true
  | _ :: _, [] => false
  | p :: ps, c :: cs => p == c && leadsWith ps cs

/-- Bool test that the pattern occurs somewhere in the list. -/
def containsSub (pat : List Char) : List Char → Bool
  | [] => leadsWith pat []
  | c :: rest => leadsWith pat (c :: rest) || containsSub pat rest

/-- First occurrence of `sep` in `s`: the part before and the part after. -/
def splitOnce (sep : List Char) : List Char → Option (List Char × List Char)
  | [] => none
  | c :: rest =>
    if leadsWith sep (c :: rest) then some ([], (c :: rest).drop sep.length)
    else (splitOnce sep rest).map (fun pr => (c :: pr.1, pr.2))

/-- Python `str.split(sep, 2)`: at most two splits, the remainder kept whole. -/
def pySplit2 (sep s : String) : List String :=
  match splitOnce sep.data s.data with
  | none => [s]
  | some (a, r1) =>
    match splitOnce sep.data r1 with
    | none => [String.mk a, String.mk r1]
    | some (b, r2) => [String.mk a, String.mk b, String.mk r2]

/-- Splits a character list on newlines (Python `str.split("\n")`). -/
def splitNl : List Char → List (List Char)
  | [] => [[]]
  | c :: rest =>
    if c = '\n' then [] :: splitNl rest
    else
      match splitNl rest with
      | hd :: tl => (c :: hd) :: tl
      | [] => [[c]]

/-- A parsed YAML value: a string scalar, or a flat mapping of string scalars
(the only value shapes the program's message schema uses). -/
inductive Val where
  | s : String → Val
  | m : List (String × String) → Val
deriving DecidableEq, Repr

/-- A parsed message or response: a Python dict as an association list. -/
abbrev Msg := List (String × Val)

/-- The filesystem: paths mapped to file contents. -/
abbrev Fs := List (String × String)

/-- The single-quote character, as used by the YAML quoting style. -/
def sq : Char := Char.ofNat 39

/-- Characters allowed in a plain (unquoted) YAML scalar in this model. -/
def plainChar (c : Char) : Bool :=
  c.isAlphanum || c = ' ' || c = '_' || c = '-' || c = '.' || c = '/' || c = '+'

/-- Whether a scalar can be emitted unquoted: nonempty, starts with a letter,
only plain characters, and does not end with a space. -/
def plainOk (l : List Char) : Bool :=
  match l with
  | [] => false
  | c :: _ => c.isAlpha && l.all plainChar && !(l.getLastD ' ' = ' ')

/-- Doubles every single quote (YAML single-quoted escaping). -/
def escQ : List Char → List Char
  | [] => []
  | c :: t => if c = sq then sq :: sq :: escQ t else c :: escQ t

/-- Reads a single-quoted scalar body up to and including the closing quote. -/
def unq : List Char → Option (List Char)
  | [] => none
  | [c] => if c = sq then some [] else none
  | c :: c2 :: t =>
    if c = sq then
      if c2 = sq then (unq t).map (fun l => sq :: l) else none
    else (unq (c2 :: t)).map (fun l => c :: l)

/-- Emits a scalar the way `yaml.dump` does: plain if possible, else
single-quoted. -/
def dumpScalar (v : String) : List Char :=
  if plainOk v.data then v.data else sq :: escQ v.data ++ [sq]

/-- Parses a scalar (plain or single-quoted) to a string. -/
def parseScalarS (v : List Char) : Option String :=
  match v with
  | [] => none
  | c :: rest =>
    if c = sq then (unq rest).map String.mk
    else if plainOk v then some (String.mk v) else none

/-- Parses a scalar position value: `\x7b\x7d` is the empty mapping, anything
else is a string scalar. -/
def parseScalar (v : List Char) : Option Val :=
  if v = "\x7b\x7d".data then some (.m []) else (parseScalarS v).map Val.s

/-- Keeps the last binding of every key, in first-appearance order: how a
Python dict built from parsed YAML pairs behaves. -/
def dedup {α : Type} (l : List (String × α)) : List (String × α) :=
  l.foldl (fun m e => aset m e.1 e.2) []

/-- Code-point lexicographic order on character lists, the order Python's
`sorted` puts strings in. -/
def leLex : List Char → List Char → Bool
  | [], _ => true
  | _ :: _, [] => false
  | a :: as, b :: bs => if a = b then leLex as bs else decide (a.toNat < b.toNat)

/-- Key order used by `yaml.dump` (`sort_keys=True`). -/
def keyLe (a b : String) : Bool := leLex a.data b.data

/-- Insertion step of a key-ordered insertion sort. -/
def insE {α : Type} (e : String × α) : List (String × α) → List (String × α)
  | [] => [e]
  | x :: t => if keyLe e.1 x.1 then e :: x :: t else x :: insE e t

/-- Sorts entries by key, as `yaml.dump` does (`sort_keys=True`). -/
def sortE {α : Type} (l : List (String × α)) : List (String × α) :=
  l.foldr insE []

/-- The emitted line of one nested (two-space indented) mapping entry. -/
def nestLine (e : String × String) : List Char :=
  "  ".data ++ e.1.data ++ ": ".data ++ dumpScalar e.2

/-- The emitted lines of one top-level mapping entry. -/
def entryLines : String × Val → List (List Char)
  | (k, .s v) => [k.data ++ ": ".data ++ dumpScalar v]
  | (k, .m []) => [k.data ++ ": \x7b\x7d".data]
  | (k, .m kvs) => (k.data ++ [':']) :: (sortE kvs).map nestLine

/-- All lines `yaml.dump` emits for a mapping, in sorted key order. -/
def yamlLines (m : Msg) : List (List Char) :=
  (sortE m).foldr (fun e acc => entryLines e ++ acc) []

/-- The text `yaml.dump` produces: each line terminated by a newline. -/
def yamlText (m : Msg) : String :=
  String.mk ((yamlLines m).foldr (fun l acc => l ++ '\n' :: acc) [])

/-- Parses one nested line `"  key: scalar"`. -/
def parseNestedLine (l : List Char) : Option (String × String) :=
  match l with
  | ' ' :: ' ' :: rest =>
    if leadsWith [' '] rest then none
    else
      match splitOnce ": ".data rest with
      | some (k, vraw) => (parseScalarS vraw).map (fun v => (String.mk k, v))
      | none => none
  | _ => none

/-- Maps a fallible function, failing when any element fails. -/
def mapOpt {α β : Type} (f : α → Option β) : List α → Option (List β)
  | [] => some []
  | x :: t =>
    match f x, mapOpt f t with
    | some y, some ys => some (y :: ys)
    | _, _ => none

/-- One step of the structured-section parser, applied to the lines from
bottom to top. The state carries the indented lines pending below (waiting
for their `key:` header) and the mapping parsed so far (`none` on error). -/
def pStep (l : List Char) (st : List (List Char) × Option (List (String × Val))) :
    List (List Char) × Option (List (String × Val)) :=
  match st with
  | (_, none) => ([], none)
  | (pending, some tail) =>
    if leadsWith [' '] l then (l :: pending, some tail)
    else
      match splitOnce ": ".data l with
      | some (k, vraw) =>
        if pending = [] then
          match parseScalar vraw with
          | some v => ([], some ((String.mk k, v) :: tail))
          | none => ([], none)
        else ([], none)
      | none =>
        match l.getLast? with
        | some c =>
          if c = ':' then
            if pending = [] then ([], none)
            else
              match mapOpt parseNestedLine pending with
              | some pairs => ([], some ((String.mk l.dropLast, .m (dedup pairs)) :: tail))
              | none => ([], none)
          else ([], none)
        | none => ([], none)

/-- Parses the lines of the structured section as a two-level mapping.
Anything outside the fragment (deeper nesting, blank lines, bare scalars)
is rejected, which the caller treats like a PyYAML parse failure. -/
def parseLines (ls : List (List Char)) : Option (List (String × Val)) :=
  match ls.foldr pStep ([], some []) with
  | ([], out) => out
  | (_ :: _, _) => none

/-- Models `yaml.safe_load` on the supported fragment, returning a mapping
with Python-dict duplicate-key behaviour, or `none` where PyYAML raises or
returns a non-mapping. -/
def parseYaml (s : String) : Option (List (String × Val)) :=
  (parseLines (splitNl s.data)).map dedup

/-- Decimal digit character. -/
def digitChar (d : Nat) : Char := Char.ofNat (48 + d)

/-- Decimal digits of a number, most significant first (fuel-guided so that
it evaluates by kernel reduction). -/
def natReprAux : Nat → Nat → List Char
  | 0, _ => []
  | fuel + 1, n => if n < 10 then [digitChar n] else natReprAux fuel (n / 10) ++ [digitChar (n % 10)]

/-- Python `str(n)` for a natural number. -/
def natRepr (n : Nat) : String := String.mk (natReprAux (n + 1) n)

/-- Joins strings with a separator. -/
def joinStr (sep : String) : List String → String
  | [] => ""
  | [x] => x
  | x :: xs => x ++ sep ++ joinStr sep xs

/-- Python `str(value)` for the values a message field can hold (a mapping
renders as a Python dict repr). -/
def valToStr : Val → String
  | .s v => v
  | .m kvs =>
    "\x7b" ++ joinStr ", "
      (kvs.map (fun e => String.singleton sq ++ e.1 ++ String.singleton sq ++ ": "
        ++ String.singleton sq ++ e.2 ++ String.singleton sq)) ++ "\x7d"

/-- The poller's shared directory, `workspace / "shared"`. -/
def sharedDir (w : String) : String := w ++ "/shared"

/-- The input file path, `shared/claude-to-jules-message.md`. -/
def inputFile (w : String) : String := sharedDir w ++ "/claude-to-jules-message.md"

/-- The output file path, `shared/jules-to-cc.md`. -/
def outputFile (w : String) : String := sharedDir w ++ "/jules-to-cc.md"

/-- The archive path `shared/processed-<timestamp>.md` for a given timestamp. -/
def archiveFile (w ts : String) : String := sharedDir w ++ "/processed-" ++ ts ++ ".md"

/-- Models `pathlib`'s `workspace / p` for paths without dot components: an
absolute `p` replaces the root, a relative one is appended. -/
def resolvePath (w p : String) : String :=
  if leadsWith ['/'] p.data then p else w ++ "/" ++ p

/-- The synthetic message `read_message` builds when the content does not
carry YAML front matter. -/
def fallbackMsg (tRead content : String) : Msg :=
  [("id", .s tRead), ("from", .s "cc"), ("for", .s "jules"),
   ("action", .s "message"), ("payload", .m [("content", content)])]

/-- Embeds `HandoffPoller.read_message` applied to the given file content:
front matter is split off on `---` and parsed, the remainder becomes `body`;
content without front matter becomes a synthetic `message`; a parse failure
(PyYAML raising, or a non-mapping section) yields `none`. -/
def read_message (tRead content : String) : Option Msg :=
  if leadsWith "---".data content.data then
    match pySplit2 "---" content with
    | [_, y, b] =>
      match parseYaml (pyStrip y) with
      | some metadata => some (aset metadata "body" (.s (pyStrip b)))
      | none => none
    | _ => some (fallbackMsg tRead content)
  else some (fallbackMsg tRead content)

/-- Embeds `HandoffPoller.handle_add_file`. The `fsErr` oracle decides
whether the file write raises (with the given exception text); a payload
that is not a mapping raises an attribute error as in Python. -/
def handle_add_file (w : String) (fsErr : Option String) (fs : Fs) (payload : Val) :
    Except String (List (String × String) × Fs) :=
  match payload with
  | .s _ => .error "AttributeError"
  | .m p =>
    let file_path := aget p "path"
    let contents := aget p "contents"
    if file_path = none ∨ file_path = some "" ∨ contents = none then
      .ok ([("status", "error"), ("message", "Missing path or contents")], fs)
    else
      let fp := file_path.getD ""
      let target := resolvePath w fp
      match fsErr with
      | some e => .error e
      | none =>
        .ok ([("status", "success"), ("message", "File created: " ++ fp),
              ("path", target)], aset fs target (contents.getD ""))

/-- Embeds `HandoffPoller.handle_run_task`. -/
def handle_run_task (tHandler : String) (payload : Val) :
    Except String (List (String × String)) :=
  match payload with
  | .s _ => .error "AttributeError"
  | .m p =>
    .ok [("status", "acknowledged"),
         ("message", "Task received: " ++ agetD p "task" "No task specified"),
         ("timestamp", tHandler)]

/-- Embeds `HandoffPoller.handle_message`. -/
def handle_message (tHandler : String) (payload : Val) :
    Except String (List (String × String)) :=
  match payload with
  | .s _ => .error "AttributeError"
  | .m p =>
    let content := agetD p "content" "Empty message"
    .ok [("status", "received"),
         ("message", "Message acknowledged: " ++ natRepr content.length ++ " characters"),
         ("timestamp", tHandler)]

/-- The dispatch inside `process_message`'s `try` block: routes on the raw
action value and returns the handler result or the exception it raised. -/
def dispatch (w tHandler : String) (fsErr : Option String) (fs : Fs)
    (actionV payload : Val) : Except String (List (String × String) × Fs) :=
  if actionV = .s "add_file" then handle_add_file w fsErr fs payload
  else if actionV = .s "run_task" then (handle_run_task tHandler payload).map (fun r => (r, fs))
  else if actionV = .s "message" then (handle_message tHandler payload).map (fun r => (r, fs))
  else .ok ([("status", "error"), ("message", "Unknown action: " ++ valToStr actionV)], fs)

/-- Embeds `HandoffPoller.process_message`: builds the response skeleton,
runs the dispatch under the failure boundary, and installs the resulting
payload (an exception becomes a `status: error` payload). -/
def process_message (w tResp tHandler : String) (fsErr : Option String) (fs : Fs)
    (message : Msg) : Msg × Fs :=
  let actionV := agetD message "action" (.s "unknown")
  let payload := agetD message "payload" (.m [])
  let response : Msg :=
    [("id", .s tResp), ("from", .s "jules"), ("for", agetD message "from" (.s "cc")),
     ("action", .s (valToStr actionV ++ "_response")), ("payload", .m [])]
  match dispatch w tHandler fsErr fs actionV payload with
  | .ok (result, fs2) => (aset response "payload" (.m result), fs2)
  | .error e =>
    (aset response "payload"
      (.m [("status", "error"),
           ("message", "Error processing " ++ valToStr actionV ++ ": " ++ e)]), fs)

/-- Embeds `HandoffPoller.write_response`: the serialized output document
(delimiter, YAML of every field except `body`, delimiter, blank line, body). -/
def write_response (response : Msg) : String :=
  let yamlData := response.filter (fun e => e.1 ≠ "body")
  let body :=
    match aget response "body" with
    | some b => valToStr b
    | none => "Response to " ++ valToStr (agetD response "action" (.s "unknown"))
  "---\n" ++ yamlText yamlData ++ "---\n\n" ++ body

/-- Embeds `HandoffPoller.poll_once`: read and parse the input file, produce
and write the response, then archive the input by renaming it. The four
timestamp parameters stand for the four `datetime.now` calls (fallback id,
response id, handler timestamp, archive name). -/
def poll_once (w tRead tResp tHandler tArch : String) (fsErr : Option String)
    (fs : Fs) : Bool × Fs :=
  match (aget fs (inputFile w)).bind (read_message tRead) with
  | none => (false, fs)
  | some message =>
    let pr := process_message w tResp tHandler fsErr fs message
    let fs2 := aset pr.2 (outputFile w) (write_response pr.1)
    let fs3 :=
      match aget fs2 (inputFile w) with
      | some c => aset (adel fs2 (inputFile w)) (archiveFile w tArch) c
      | none => fs2
    (true, fs3)

/-! ### Association-list laws -/

theorem aget_aset_self {α : Type} (m : List (String × α)) (k : String) (v : α) :
    aget (aset m k v) k = some v := by
  induction m with
  | nil => simp [aset, aget]
  | cons e t ih =>
    by_cases h : e.1 = k
    · simp [aset, aget, h]
    · simp [aset, aget, h, ih]

theorem aget_aset_ne {α : Type} (m : List (String × α)) (k k' : String) (v : α)
    (h : k ≠ k') : aget (aset m k v) k' = aget m k' := by
  induction m with
  | nil => simp [aset, aget, h]
  | cons e t ih =>
    by_cases he : e.1 = k
    · simp [aset, aget, he, h, Ne.symm h]
    · by_cases he' : e.1 = k'
      · simp [aset, aget, he, he', Ne.symm h]
      · simp [aset, aget, he, he', ih]

theorem aget_adel {α : Type} (m : List (String × α)) (k k' : String) :
    aget (adel m k) k' = if k' = k then none else aget m k' := by
  induction m with
  | nil => simp [adel, aget]
  | cons e t ih =>
    by_cases he : e.1 = k
    · by_cases hk : k' = k
      · subst hk
        simp [adel, aget, he, ih]
      · have hkk : ¬ k = k' := fun hh => hk hh.symm
        simp [adel, aget, he, hk, ih, hkk]
    · by_cases he' : e.1 = k'
      · have hk : ¬ k' = k := by rw [← he']; exact fun hh => he hh
        simp [adel, aget, he, he', hk]
      · simp [adel, aget, he, he', ih]

theorem aset_not_mem_append {α : Type} (m : List (String × α)) (k : String) (v : α)
    (h : aget m k = none) : aset m k v = m ++ [(k, v)] := by
  induction m with
  | nil => simp [aset]
  | cons e t ih =>
    by_cases he : e.1 = k
    · simp [aget, he] at h
    · simp [aget, he] at h
      simp [aset, he, ih h]

/-! ### Path facts -/

theorem data_append (a b : String) : (a ++ b).data = a.data ++ b.data := rfl

theorem output_ne_input (w : String) : outputFile w ≠ inputFile w := by
  intro h
  have h2 := congrArg String.data h
  simp only [outputFile, inputFile, sharedDir, data_append, List.append_assoc] at h2
  have h3 := List.append_cancel_left (List.append_cancel_left h2)
  have h4 := congrArg (fun l => (l.drop 1).head?) h3
  simp at h4

theorem arch_ne_input (w ts : String) : archiveFile w ts ≠ inputFile w := by
  intro h
  have h2 := congrArg String.data h
  simp only [archiveFile, inputFile, sharedDir, data_append, List.append_assoc] at h2
  have h3 := List.append_cancel_left (List.append_cancel_left h2)
  have h4 := congrArg (fun l => (l.drop 1).head?) h3
  simp at h4

theorem arch_ne_output (w ts : String) : archiveFile w ts ≠ outputFile w := by
  intro h
  have h2 := congrArg String.data h
  simp only [archiveFile, outputFile, sharedDir, data_append, List.append_assoc] at h2
  have h3 := List.append_cancel_left (List.append_cancel_left h2)
  have h4 := congrArg (fun l => (l.drop 1).head?) h3
  simp at h4

/-! ### Claims about the response header (C1) -/

/-- An input document whose `for` tag is not the poller's own name. -/
def c1doc : String := "---\naction: message\nfrom: alice\nfor: bob\n---\nhi"

/-- C1: counterexample. For the successfully parsed message of `c1doc`
(whose `for` field is `bob`), the response's `from` field is `jules`, not
the message's `for` field: the claimed sender/recipient swap does not hold. -/
theorem C1_counterexample :
    (read_message "t0" c1doc).isSome = true ∧
    aget (read_message "t0" c1doc).toList.flatten "for" = some (.s "bob") ∧
    aget (process_message "/w" "t1" "t2" none []
      (read_message "t0" c1doc).toList.flatten).1 "from" = some (.s "jules") ∧
    Val.s "jules" ≠ Val.s "bob" := by
  refine ⟨by decide, by decide, by decide, by decide⟩

/-- C1 (amended): for every message, the response built by `process_message`
has `from` equal to the constant `jules`, `for` equal to the message's
`from` field (defaulting to `cc` when absent), and `action` equal to the
message's action rendered as a string with `_response` appended. -/
theorem C1_amended (w t1 t2 : String) (fsErr : Option String) (fs : Fs) (msg : Msg) :
    aget (process_message w t1 t2 fsErr fs msg).1 "from" = some (.s "jules") ∧
    aget (process_message w t1 t2 fsErr fs msg).1 "for" = some (agetD msg "from" (.s "cc")) ∧
    aget (process_message w t1 t2 fsErr fs msg).1 "action" =
      some (.s (valToStr (agetD msg "action" (.s "unknown")) ++ "_response")) := by
  simp only [process_message]
  cases h : dispatch w t2 fsErr fs (agetD msg "action" (.s "unknown")) (agetD msg "payload" (.m [])) with
  | ok pr => simp [h, aset, aget]
  | error e => simp [h, aset, aget]

/-! ### Claims about the concrete message scenario (C2) -/

/-- The concrete input document of the spec's scenario. -/
def c2doc : String := "---\naction: message\nfrom: cc\nfor: jules\n---\nHello"

/-- The filesystem holding only that input document. -/
def c2fs : Fs := [(inputFile "/w", c2doc)]

/-- The response document `poll_once` writes for the scenario, re-parsed. -/
def c2out : Msg :=
  ((aget (poll_once "/w" "t0" "t1" "t2" "ts" none c2fs).2 (outputFile "/w")).bind
    (read_message "tz")).toList.flatten

/-- C2: counterexample. For the scenario input, the payload `message` text of
the written response is `Message acknowledged: 13 characters` (the handler
counts `payload.content`, which is absent and defaults to the thirteen
character placeholder `Empty message`; the document body `Hello` is stored
under `body` and never counted), not the claimed `5 characters`. -/
theorem C2_counterexample :
    (match aget c2out "payload" with
     | some (.m p) => aget p "message"
     | _ => none) = some "Message acknowledged: 13 characters" ∧
    some "Message acknowledged: 13 characters" ≠
      some "Message acknowledged: 5 characters" := by
  refine ⟨by decide, by decide⟩

/-- C2 (amended): for the scenario input, `poll_once` writes an output
document whose structured section contains `action: message_response`,
`from: jules`, `for: cc`, and whose payload `message` text is exactly
`Message acknowledged: 13 characters`. -/
theorem C2_scenario :
    (poll_once "/w" "t0" "t1" "t2" "ts" none c2fs).1 = true ∧
    aget c2out "action" = some (.s "message_response") ∧
    aget c2out "from" = some (.s "jules") ∧
    aget c2out "for" = some (.s "cc") ∧
    (match aget c2out "payload" with
     | some (.m p) => aget p "message"
     | _ => none) = some "Message acknowledged: 13 characters" := by
  refine ⟨by decide, by decide, by decide, by decide, by decide⟩

/-! ### Claims about add_file payload validation (C7, C10) -/

/-- C7: for an `add_file` message whose payload lacks `contents`, the handler
reports `status: error` with the `Missing path or contents` message, and the
filesystem is untouched (no file is created). -/
theorem C7_missing_contents (w t1 t2 : String) (fsErr : Option String) (fs : Fs)
    (msg : Msg) (p : List (String × String))
    (ha : agetD msg "action" (.s "unknown") = .s "add_file")
    (hp : agetD msg "payload" (.m []) = .m p)
    (hc : aget p "contents" = none) :
    (process_message w t1 t2 fsErr fs msg).2 = fs ∧
    aget (process_message w t1 t2 fsErr fs msg).1 "payload" =
      some (.m [("status", "error"), ("message", "Missing path or contents")]) := by
  simp [process_message, dispatch, handle_add_file, ha, hp, hc, aset, aget]

/-- Witness for C7 at a concrete message with a path but no contents. -/
theorem C7_missing_contents_witness :
    (process_message "/w" "t1" "t2" none []
      [("action", Val.s "add_file"), ("payload", Val.m [("path", "x.md")])]).2 = [] ∧
    aget (process_message "/w" "t1" "t2" none []
      [("action", Val.s "add_file"), ("payload", Val.m [("path", "x.md")])]).1 "payload" =
      some (.m [("status", "error"), ("message", "Missing path or contents")]) :=
  C7_missing_contents "/w" "t1" "t2" none []
    [("action", Val.s "add_file"), ("payload", Val.m [("path", "x.md")])]
    [("path", "x.md")] (by decide) (by decide) (by decide)

/-- C10: for an `add_file` message whose payload `path` is the empty string,
the handler reports `status: error` and writes no file, even when `contents`
is a present string: the code's falsy test treats an empty path as missing. -/
theorem C10_empty_path (w t1 t2 : String) (fsErr : Option String) (fs : Fs)
    (msg : Msg) (p : List (String × String)) (c : String)
    (ha : agetD msg "action" (.s "unknown") = .s "add_file")
    (hp : agetD msg "payload" (.m []) = .m p)
    (hpath : aget p "path" = some "")
    (hc : aget p "contents" = some c) :
    (process_message w t1 t2 fsErr fs msg).2 = fs ∧
    aget (process_message w t1 t2 fsErr fs msg).1 "payload" =
      some (.m [("status", "error"), ("message", "Missing path or contents")]) := by
  simp [process_message, dispatch, handle_add_file, ha, hp, hpath, hc, aset, aget]

/-- Witness for C10 at a concrete message with an empty path and contents. -/
theorem C10_empty_path_witness :
    (process_message "/w" "t1" "t2" none []
      [("action", Val.s "add_file"), ("payload", Val.m [("path", ""), ("contents", "hello")])]).2 = [] ∧
    aget (process_message "/w" "t1" "t2" none []
      [("action", Val.s "add_file"), ("payload", Val.m [("path", ""), ("contents", "hello")])]).1 "payload" =
      some (.m [("status", "error"), ("message", "Missing path or contents")]) :=
  C10_empty_path "/w" "t1" "t2" none []
    [("action", Val.s "add_file"), ("payload", Val.m [("path", ""), ("contents", "hello")])]
    [("path", ""), ("contents", "hello")] "hello" (by decide) (by decide) (by decide) (by decide)

/-! ### Unfolding poll_once after a successful parse -/

theorem poll_once_unfold (w t0 t1 t2 ta : String) (fsErr : Option String) (fs : Fs)
    (content : String) (msg : Msg)
    (hin : aget fs (inputFile w) = some content)
    (hrm : read_message t0 content = some msg) :
    poll_once w t0 t1 t2 ta fsErr fs =
      (true,
        match aget (aset (process_message w t1 t2 fsErr fs msg).2 (outputFile w)
            (write_response (process_message w t1 t2 fsErr fs msg).1)) (inputFile w) with
        | some c =>
          aset (adel (aset (process_message w t1 t2 fsErr fs msg).2 (outputFile w)
              (write_response (process_message w t1 t2 fsErr fs msg).1)) (inputFile w))
            (archiveFile w ta) c
        | none =>
          aset (process_message w t1 t2 fsErr fs msg).2 (outputFile w)
            (write_response (process_message w t1 t2 fsErr fs msg).1)) := by
  simp only [poll_once, hin, Option.bind, hrm]

/-! ### Malformed front matter aborts the cycle (C8) -/

/-- C8: when the input begins with the delimiter, splits into three parts,
and the structured section fails to parse, `poll_once` returns `false` and
leaves the filesystem untouched: no response is written and the input file
stays in place. -/
theorem C8_malformed (w t0 t1 t2 ta : String) (fsErr : Option String) (fs : Fs)
    (content a y b : String)
    (hin : aget fs (inputFile w) = some content)
    (hpre : leadsWith "---".data content.data = true)
    (hsplit : pySplit2 "---" content = [a, y, b])
    (hparse : parseYaml (pyStrip y) = none) :
    poll_once w t0 t1 t2 ta fsErr fs = (false, fs) := by
  simp [poll_once, hin, read_message, hpre, hsplit, hparse]

/-- Witness for C8 at a concrete unparsable document. -/
theorem C8_malformed_witness :
    poll_once "/w" "t0" "t1" "t2" "ts" none [(inputFile "/w", "---\nnonsense\n---\nx")] =
      (false, [(inputFile "/w", "---\nnonsense\n---\nx")]) :=
  C8_malformed "/w" "t0" "t1" "t2" "ts" none _ "---\nnonsense\n---\nx" "" "\nnonsense\n" "\nx"
    (by decide) (by decide) (by decide) (by decide)

/-! ### Unknown actions still complete the cycle (C9) -/

/-- C9: for a parsed message whose action string is none of the three known
ones, the response payload is `status: error` with a message naming the
unknown action, and the cycle still completes: `poll_once` returns `true`,
writes the response document, removes the input file and archives its
content. -/
theorem C9_unknown_action (w t0 t1 t2 ta : String) (fsErr : Option String) (fs : Fs)
    (content a : String) (msg : Msg)
    (hin : aget fs (inputFile w) = some content)
    (hrm : read_message t0 content = some msg)
    (ha : agetD msg "action" (.s "unknown") = .s a)
    (h1 : a ≠ "add_file") (h2 : a ≠ "run_task") (h3 : a ≠ "message") :
    (poll_once w t0 t1 t2 ta fsErr fs).1 = true ∧
    aget (process_message w t1 t2 fsErr fs msg).1 "payload" =
      some (.m [("status", "error"), ("message", "Unknown action: " ++ a)]) ∧
    aget (poll_once w t0 t1 t2 ta fsErr fs).2 (outputFile w) =
      some (write_response (process_message w t1 t2 fsErr fs msg).1) ∧
    aget (poll_once w t0 t1 t2 ta fsErr fs).2 (inputFile w) = none ∧
    aget (poll_once w t0 t1 t2 ta fsErr fs).2 (archiveFile w ta) = some content := by
  have hout := output_ne_input w
  have hai := arch_ne_input w ta
  have hao := arch_ne_output w ta
  have hpm2 : (process_message w t1 t2 fsErr fs msg).2 = fs := by
    simp [process_message, dispatch, ha, h1, h2, h3]
  have hpay : aget (process_message w t1 t2 fsErr fs msg).1 "payload" =
      some (.m [("status", "error"), ("message", "Unknown action: " ++ a)]) := by
    simp [process_message, dispatch, ha, h1, h2, h3, valToStr, aset, aget]
  have hunf := poll_once_unfold w t0 t1 t2 ta fsErr fs content msg hin hrm
  have hfs2in : aget (aset (process_message w t1 t2 fsErr fs msg).2 (outputFile w)
      (write_response (process_message w t1 t2 fsErr fs msg).1)) (inputFile w) = some content := by
    rw [aget_aset_ne _ _ _ _ hout, hpm2, hin]
  rw [hunf]
  refine ⟨rfl, hpay, ?_, ?_, ?_⟩
  · simp only [hfs2in]
    rw [aget_aset_ne _ _ _ _ hao, aget_adel]
    simp [hout, aget_aset_self]
  · simp only [hfs2in]
    rw [aget_aset_ne _ _ _ _ hai, aget_adel]
    simp
  · simp only [hfs2in]
    rw [aget_aset_self]

/-- Witness for C9 at a concrete document with action `fly`. -/
theorem C9_unknown_action_witness :
    (poll_once "/w" "t0" "t1" "t2" "ts" none
      [(inputFile "/w", "---\naction: fly\nfrom: cc\nfor: jules\n---\nx")]).1 = true ∧
    aget (process_message "/w" "t1" "t2" none
      [(inputFile "/w", "---\naction: fly\nfrom: cc\nfor: jules\n---\nx")]
      [("action", .s "fly"), ("from", .s "cc"), ("for", .s "jules"), ("body", .s "x")]).1 "payload" =
      some (.m [("status", "error"), ("message", "Unknown action: " ++ "fly")]) ∧
    aget (poll_once "/w" "t0" "t1" "t2" "ts" none
      [(inputFile "/w", "---\naction: fly\nfrom: cc\nfor: jules\n---\nx")]).2 (outputFile "/w") =
      some (write_response (process_message "/w" "t1" "t2" none
        [(inputFile "/w", "---\naction: fly\nfrom: cc\nfor: jules\n---\nx")]
        [("action", .s "fly"), ("from", .s "cc"), ("for", .s "jules"), ("body", .s "x")]).1) ∧
    aget (poll_once "/w" "t0" "t1" "t2" "ts" none
      [(inputFile "/w", "---\naction: fly\nfrom: cc\nfor: jules\n---\nx")]).2 (inputFile "/w") = none ∧
    aget (poll_once "/w" "t0" "t1" "t2" "ts" none
      [(inputFile "/w", "---\naction: fly\nfrom: cc\nfor: jules\n---\nx")]).2 (archiveFile "/w" "ts") =
      some "---\naction: fly\nfrom: cc\nfor: jules\n---\nx" :=
  C9_unknown_action "/w" "t0" "t1" "t2" "ts" none _
    "---\naction: fly\nfrom: cc\nfor: jules\n---\nx" "fly"
    [("action", .s "fly"), ("from", .s "cc"), ("for", .s "jules"), ("body", .s "x")]
    (by decide) (by decide) (by decide) (by decide) (by decide) (by decide)

/-! ### The always-reply failure boundary (C3) -/

/-- C3: once a message parses, the cycle always completes: `poll_once`
returns `true`, the response document is written to the output file, and the
input file is consumed — for every outcome of the dispatched handler,
including a raised exception. The response payload is the handler's result
when it returns, and the `status: error` conversion naming the action and
the exception text when it raises; the exception never escapes. -/
theorem C3_always_reply (w t0 t1 t2 ta : String) (fsErr : Option String) (fs : Fs)
    (content : String) (msg : Msg)
    (hin : aget fs (inputFile w) = some content)
    (hrm : read_message t0 content = some msg) :
    (poll_once w t0 t1 t2 ta fsErr fs).1 = true ∧
    aget (poll_once w t0 t1 t2 ta fsErr fs).2 (outputFile w) =
      some (write_response (process_message w t1 t2 fsErr fs msg).1) ∧
    aget (poll_once w t0 t1 t2 ta fsErr fs).2 (inputFile w) = none ∧
    aget (process_message w t1 t2 fsErr fs msg).1 "payload" =
      some (.m
        (match dispatch w t2 fsErr fs (agetD msg "action" (.s "unknown"))
            (agetD msg "payload" (.m [])) with
         | .ok r => r.1
         | .error e =>
           [("status", "error"),
            ("message", "Error processing " ++ valToStr (agetD msg "action" (.s "unknown"))
              ++ ": " ++ e)])) := by
  have hout := output_ne_input w
  have hai := arch_ne_input w ta
  have hao := arch_ne_output w ta
  have hunf := poll_once_unfold w t0 t1 t2 ta fsErr fs content msg hin hrm
  rw [hunf]
  refine ⟨rfl, ?_, ?_, ?_⟩
  · rcases hc : aget (aset (process_message w t1 t2 fsErr fs msg).2 (outputFile w)
        (write_response (process_message w t1 t2 fsErr fs msg).1)) (inputFile w) with _ | c
    · simp only [hc, aget_aset_self]
    · simp only [hc]
      rw [aget_aset_ne _ _ _ _ hao, aget_adel]
      simp [hout, aget_aset_self]
  · rcases hc : aget (aset (process_message w t1 t2 fsErr fs msg).2 (outputFile w)
        (write_response (process_message w t1 t2 fsErr fs msg).1)) (inputFile w) with _ | c
    · simp only [hc]
    · simp only [hc]
      rw [aget_aset_ne _ _ _ _ hai, aget_adel]
      simp
  · simp only [process_message]
    cases hd : dispatch w t2 fsErr fs (agetD msg "action" (.s "unknown"))
        (agetD msg "payload" (.m [])) with
    | ok pr => simp [hd, aset, aget]
    | error e => simp [hd, aset, aget]

/-- The document used to exercise the failure boundary: a valid `add_file`
request, run with a failing file write. -/
def c3doc : String :=
  "---\naction: add_file\nfrom: cc\nfor: jules\npayload:\n  contents: hi\n  path: a.md\n---\nx"

/-- Witness for C3 at a concrete message whose handler raises (the write
fails with exception text `boom`). -/
theorem C3_always_reply_witness :
    (poll_once "/w" "t0" "t1" "t2" "ts" (some "boom") [(inputFile "/w", c3doc)]).1 = true ∧
    aget (poll_once "/w" "t0" "t1" "t2" "ts" (some "boom") [(inputFile "/w", c3doc)]).2 (outputFile "/w") =
      some (write_response (process_message "/w" "t1" "t2" (some "boom") [(inputFile "/w", c3doc)]
        [("action", .s "add_file"), ("from", .s "cc"), ("for", .s "jules"),
         ("payload", .m [("contents", "hi"), ("path", "a.md")]), ("body", .s "x")]).1) ∧
    aget (poll_once "/w" "t0" "t1" "t2" "ts" (some "boom") [(inputFile "/w", c3doc)]).2 (inputFile "/w") = none ∧
    aget (process_message "/w" "t1" "t2" (some "boom") [(inputFile "/w", c3doc)]
        [("action", .s "add_file"), ("from", .s "cc"), ("for", .s "jules"),
         ("payload", .m [("contents", "hi"), ("path", "a.md")]), ("body", .s "x")]).1 "payload" =
      some (.m
        (match dispatch "/w" "t2" (some "boom") [(inputFile "/w", c3doc)]
            (agetD [("action", Val.s "add_file"), ("from", Val.s "cc"), ("for", Val.s "jules"),
              ("payload", Val.m [("contents", "hi"), ("path", "a.md")]), ("body", Val.s "x")]
              "action" (.s "unknown"))
            (agetD [("action", Val.s "add_file"), ("from", Val.s "cc"), ("for", Val.s "jules"),
              ("payload", Val.m [("contents", "hi"), ("path", "a.md")]), ("body", Val.s "x")]
              "payload" (.m [])) with
         | .ok r => r.1
         | .error e =>
           [("status", "error"),
            ("message", "Error processing " ++ valToStr
              (agetD [("action", Val.s "add_file"), ("from", Val.s "cc"), ("for", Val.s "jules"),
                ("payload", Val.m [("contents", "hi"), ("path", "a.md")]), ("body", Val.s "x")]
                "action" (.s "unknown")) ++ ": " ++ e)])) :=
  C3_always_reply "/w" "t0" "t1" "t2" "ts" (some "boom") _ c3doc
    [("action", .s "add_file"), ("from", .s "cc"), ("for", .s "jules"),
     ("payload", .m [("contents", "hi"), ("path", "a.md")]), ("body", .s "x")]
    (by decide) (by decide)

/-! ### Prefix and counting lemmas for archive bookkeeping -/

theorem leadsWith_append_self (x y : List Char) : leadsWith x (x ++ y) = true := by
  induction x with
  | nil => simp [leadsWith]
  | cons c t ih => simp [leadsWith, ih]

theorem leadsWith_cancel (x u v : List Char) :
    leadsWith (x ++ u) (x ++ v) = leadsWith u v := by
  induction x with
  | nil => simp
  | cons c t ih => simp [leadsWith, ih]

theorem proc_lw_arch (w ts : String) :
    leadsWith (sharedDir w ++ "/processed-").data (archiveFile w ts).data = true := by
  have h : (archiveFile w ts).data =
      (sharedDir w ++ "/processed-").data ++ (ts.data ++ ".md".data) := by
    simp [archiveFile, data_append, List.append_assoc]
  rw [h, leadsWith_append_self]

theorem proc_not_input (w : String) :
    leadsWith (sharedDir w ++ "/processed-").data (inputFile w).data = false := by
  have h1 : (sharedDir w ++ "/processed-").data =
      (sharedDir w).data ++ "/processed-".data := rfl
  have h2 : (inputFile w).data =
      (sharedDir w).data ++ "/claude-to-jules-message.md".data := rfl
  rw [h1, h2, leadsWith_cancel]
  decide

theorem proc_not_output (w : String) :
    leadsWith (sharedDir w ++ "/processed-").data (outputFile w).data = false := by
  have h1 : (sharedDir w ++ "/processed-").data =
      (sharedDir w).data ++ "/processed-".data := rfl
  have h2 : (outputFile w).data =
      (sharedDir w).data ++ "/jules-to-cc.md".data := rfl
  rw [h1, h2, leadsWith_cancel]
  decide

theorem countP_aset_false {q : String → Bool} (fs : Fs) (k v : String) (h : q k = false) :
    (aset fs k v).countP (fun e => q e.1) = fs.countP (fun e => q e.1) := by
  induction fs with
  | nil => simp [aset, List.countP_cons, h]
  | cons e t ih =>
    by_cases he : e.1 = k
    · simp [aset, he, List.countP_cons, h]
    · simp [aset, he, List.countP_cons, ih]

theorem countP_aset_new {q : String → Bool} (fs : Fs) (k v : String)
    (hget : aget fs k = none) (hq : q k = true) :
    (aset fs k v).countP (fun e => q e.1) = fs.countP (fun e => q e.1) + 1 := by
  rw [aset_not_mem_append fs k v hget, List.countP_append]
  simp [List.countP_cons, hq]

theorem countP_adel_false {q : String → Bool} (fs : Fs) (k : String) (h : q k = false) :
    (adel fs k).countP (fun e => q e.1) = fs.countP (fun e => q e.1) := by
  induction fs with
  | nil => simp [adel]
  | cons e t ih =>
    by_cases he : e.1 = k
    · simp [adel, he, List.countP_cons, ih, h]
    · simp [adel, he, List.countP_cons, ih]

/-! ### The file written by the dispatched handler, if any -/

/-- The path the handler of this message writes to: `some` exactly when the
message is an `add_file` with a usable payload. -/
def handlerTarget (w : String) (msg : Msg) : Option String :=
  match agetD msg "action" (.s "unknown"), agetD msg "payload" (.m []) with
  | .s "add_file", .m p =>
    (match aget p "path", aget p "contents" with
     | some fp, some _ => if fp = "" then none else some (resolvePath w fp)
     | _, _ => none)
  | _, _ => none

/-- `process_message` either leaves the filesystem unchanged or writes one
file, at the handler's target path. -/
theorem process_fs_cases (w t1 t2 : String) (fsErr : Option String) (fs : Fs)
    (msg : Msg) :
    (process_message w t1 t2 fsErr fs msg).2 = fs ∨
    (∃ t c, handlerTarget w msg = some t ∧
      (process_message w t1 t2 fsErr fs msg).2 = aset fs t c) := by
  cases haction : agetD msg "action" (.s "unknown") with
  | m kvs => simp [process_message, dispatch, haction]
  | s a =>
    by_cases h1 : a = "add_file"
    · subst h1
      cases hp : agetD msg "payload" (.m []) with
      | s pv => simp [process_message, dispatch, haction, hp, handle_add_file]
      | m p =>
        rcases hpath : aget p "path" with _ | fp
        · simp [process_message, dispatch, haction, hp, handle_add_file, hpath]
        · rcases hcont : aget p "contents" with _ | c
          · simp [process_message, dispatch, haction, hp, handle_add_file, hpath, hcont]
          · by_cases hfp : fp = ""
            · simp [process_message, dispatch, haction, hp, handle_add_file, hpath, hcont, hfp]
            · cases fsErr with
              | some e =>
                simp [process_message, dispatch, haction, hp, handle_add_file, hpath, hcont, hfp]
              | none =>
                refine Or.inr ⟨resolvePath w fp, c, ?_, ?_⟩
                · simp [handlerTarget, haction, hp, hpath, hcont, hfp]
                · simp [process_message, dispatch, haction, hp, handle_add_file, hpath, hcont, hfp]
    · by_cases h2 : a = "run_task"
      · subst h2
        cases hp : agetD msg "payload" (.m []) with
        | s pv => simp [process_message, dispatch, handle_run_task, haction, hp, Except.map]
        | m p => simp [process_message, dispatch, handle_run_task, haction, hp, Except.map]
      · by_cases h3 : a = "message"
        · subst h3
          cases hp : agetD msg "payload" (.m []) with
          | s pv => simp [process_message, dispatch, handle_message, haction, hp, Except.map]
          | m p => simp [process_message, dispatch, handle_message, haction, hp, Except.map]
        · simp [process_message, dispatch, haction, h1, h2, h3]

/-- Away from the handler's target file, `process_message` leaves the
filesystem unchanged. -/
theorem process_fs_aget (w t1 t2 : String) (fsErr : Option String) (fs : Fs)
    (msg : Msg) (q : String)
    (h : ∀ t, handlerTarget w msg = some t → q ≠ t) :
    aget (process_message w t1 t2 fsErr fs msg).2 q = aget fs q := by
  rcases process_fs_cases w t1 t2 fsErr fs msg with h0 | ⟨t, c, ht, h2⟩
  · rw [h0]
  · rw [h2, aget_aset_ne _ _ _ _ (Ne.symm (h t ht))]

/-- Away from the handler's target file, `process_message` preserves any
key-predicate count over the filesystem. -/
theorem process_fs_countP (w t1 t2 : String) (fsErr : Option String) (fs : Fs)
    (msg : Msg) (q : String → Bool)
    (h : ∀ t, handlerTarget w msg = some t → q t = false) :
    (process_message w t1 t2 fsErr fs msg).2.countP (fun e => q e.1) =
      fs.countP (fun e => q e.1) := by
  rcases process_fs_cases w t1 t2 fsErr fs msg with h0 | ⟨t, c, ht, h2⟩
  · rw [h0]
  · rw [h2, countP_aset_false _ _ _ (h t ht)]

/-! ### Archiving the consumed input (C5) -/

/-- An `add_file` request whose target resolves to the input file itself. -/
def c5doc : String :=
  "---\naction: add_file\nfrom: cc\nfor: jules\npayload:\n  contents: x\n  path: shared/claude-to-jules-message.md\n---\ngo"

/-- C5: counterexample. When the handler itself rewrites the input path, the
archived `processed-*` file holds the handler-written content `x`, not the
original input document: the claim that the archive always equals the
original content fails. -/
theorem C5_counterexample :
    (poll_once "/w" "t0" "t1" "t2" "ts" none [(inputFile "/w", c5doc)]).1 = true ∧
    aget (poll_once "/w" "t0" "t1" "t2" "ts" none [(inputFile "/w", c5doc)]).2
      (archiveFile "/w" "ts") = some "x" ∧
    "x" ≠ c5doc := by
  refine ⟨by decide, by decide, by decide⟩

/-- C5 (amended): after a `poll_once` that returns `true`, the input file is
gone from its original path, the archive file holds the input content, and
the number of `processed-` files grows by exactly one — provided the archive
timestamp name is fresh and the handler's own file write (if any) targets
neither the input file nor a `processed-` path; an `add_file` aimed at the
input path archives the handler-written content instead. -/
theorem C5_archive (w t0 t1 t2 ta : String) (fsErr : Option String) (fs : Fs)
    (content : String) (msg : Msg)
    (hin : aget fs (inputFile w) = some content)
    (hrm : read_message t0 content = some msg)
    (hfresh : aget fs (archiveFile w ta) = none)
    (htgt : ∀ t, handlerTarget w msg = some t →
      t ≠ inputFile w ∧ leadsWith (sharedDir w ++ "/processed-").data t.data = false) :
    (poll_once w t0 t1 t2 ta fsErr fs).1 = true ∧
    aget (poll_once w t0 t1 t2 ta fsErr fs).2 (inputFile w) = none ∧
    aget (poll_once w t0 t1 t2 ta fsErr fs).2 (archiveFile w ta) = some content ∧
    (poll_once w t0 t1 t2 ta fsErr fs).2.countP
        (fun e => leadsWith (sharedDir w ++ "/processed-").data e.1.data) =
      fs.countP (fun e => leadsWith (sharedDir w ++ "/processed-").data e.1.data) + 1 := by
  have hout := output_ne_input w
  have hai := arch_ne_input w ta
  have hao := arch_ne_output w ta
  have hpm_in : aget (process_message w t1 t2 fsErr fs msg).2 (inputFile w) =
      aget fs (inputFile w) :=
    process_fs_aget w t1 t2 fsErr fs msg _ (fun t ht => Ne.symm (htgt t ht).1)
  have hpm_arch : aget (process_message w t1 t2 fsErr fs msg).2 (archiveFile w ta) =
      aget fs (archiveFile w ta) := by
    refine process_fs_aget w t1 t2 fsErr fs msg _ (fun t ht hcontra => ?_)
    have h2 := (htgt t ht).2
    rw [← hcontra] at h2
    rw [proc_lw_arch] at h2
    exact Bool.noConfusion h2
  have hpm_cnt : (process_message w t1 t2 fsErr fs msg).2.countP
      (fun e => leadsWith (sharedDir w ++ "/processed-").data e.1.data) =
      fs.countP (fun e => leadsWith (sharedDir w ++ "/processed-").data e.1.data) :=
    process_fs_countP w t1 t2 fsErr fs msg _ (fun t ht => (htgt t ht).2)
  have hfs2in : aget (aset (process_message w t1 t2 fsErr fs msg).2 (outputFile w)
      (write_response (process_message w t1 t2 fsErr fs msg).1)) (inputFile w) = some content := by
    rw [aget_aset_ne _ _ _ _ hout, hpm_in, hin]
  rw [poll_once_unfold w t0 t1 t2 ta fsErr fs content msg hin hrm]
  simp only [hfs2in]
  have hnot : aget (adel (aset (process_message w t1 t2 fsErr fs msg).2 (outputFile w)
      (write_response (process_message w t1 t2 fsErr fs msg).1)) (inputFile w))
      (archiveFile w ta) = none := by
    rw [aget_adel, if_neg (fun hh : archiveFile w ta = inputFile w => arch_ne_input w ta hh),
      aget_aset_ne _ _ _ _ (Ne.symm hao), hpm_arch, hfresh]
  refine ⟨trivial, ?_, ?_, ?_⟩
  · rw [aget_aset_ne _ _ _ _ hai, aget_adel]
    simp
  · rw [aget_aset_self]
  · rw [@countP_aset_new (fun s => leadsWith (sharedDir w ++ "/processed-").data s.data)
      _ _ _ hnot (proc_lw_arch w ta)]
    rw [@countP_adel_false (fun s => leadsWith (sharedDir w ++ "/processed-").data s.data)
      _ _ (proc_not_input w)]
    rw [@countP_aset_false (fun s => leadsWith (sharedDir w ++ "/processed-").data s.data)
      _ _ _ (proc_not_output w)]
    rw [hpm_cnt]

/-- Witness for C5 at the concrete scenario document. -/
theorem C5_archive_witness :
    (poll_once "/w" "t0" "t1" "t2" "ts" none c2fs).1 = true ∧
    aget (poll_once "/w" "t0" "t1" "t2" "ts" none c2fs).2 (inputFile "/w") = none ∧
    aget (poll_once "/w" "t0" "t1" "t2" "ts" none c2fs).2 (archiveFile "/w" "ts") = some c2doc ∧
    (poll_once "/w" "t0" "t1" "t2" "ts" none c2fs).2.countP
        (fun e => leadsWith (sharedDir "/w" ++ "/processed-").data e.1.data) =
      c2fs.countP (fun e => leadsWith (sharedDir "/w" ++ "/processed-").data e.1.data) + 1 :=
  C5_archive "/w" "t0" "t1" "t2" "ts" none c2fs c2doc
    [("action", .s "message"), ("from", .s "cc"), ("for", .s "jules"), ("body", .s "Hello")]
    (by decide) (by decide) (by decide)
    (by intro t ht; simp [handlerTarget, agetD, aget] at ht)

/-! ### Creating the requested file (C6) -/

/-- An `add_file` request whose target resolves to the poller's own output
file. -/
def c6xdoc : String :=
  "---\naction: add_file\nfrom: cc\nfor: jules\npayload:\n  contents: x\n  path: shared/jules-to-cc.md\n---\ngo"

/-- C6: counterexample. For an `add_file` whose path resolves to the poller's
own output file, the cycle's later response write overwrites the created
file, so after `poll_once` the target does not hold the given contents. -/
theorem C6_counterexample :
    (poll_once "/w" "t0" "t1" "t2" "ts" none [(inputFile "/w", c6xdoc)]).1 = true ∧
    aget (poll_once "/w" "t0" "t1" "t2" "ts" none [(inputFile "/w", c6xdoc)]).2
      (resolvePath "/w" "shared/jules-to-cc.md") ≠ some "x" := by
  refine ⟨by decide, by decide⟩

/-- C6 (amended): for a well-formed `add_file` document with a non-empty
`path` and present `contents`, when the write succeeds and the resolved
target is not one of the poller's own files (input, output, archive), the
cycle leaves the target file holding exactly the given contents, and the
response payload is `status: success` with the `File created` message and
the resolved path. -/
theorem C6_add_file (w t0 t1 t2 ta : String) (fs : Fs)
    (content fp c : String) (msg : Msg) (p : List (String × String))
    (hin : aget fs (inputFile w) = some content)
    (hrm : read_message t0 content = some msg)
    (ha : agetD msg "action" (.s "unknown") = .s "add_file")
    (hp : agetD msg "payload" (.m []) = .m p)
    (hpath : aget p "path" = some fp) (hfp : fp ≠ "")
    (hcont : aget p "contents" = some c)
    (hti : resolvePath w fp ≠ inputFile w)
    (hto : resolvePath w fp ≠ outputFile w)
    (hta : resolvePath w fp ≠ archiveFile w ta) :
    (poll_once w t0 t1 t2 ta none fs).1 = true ∧
    aget (poll_once w t0 t1 t2 ta none fs).2 (resolvePath w fp) = some c ∧
    aget (process_message w t1 t2 none fs msg).1 "payload" =
      some (.m [("status", "success"), ("message", "File created: " ++ fp),
                ("path", resolvePath w fp)]) := by
  have hout := output_ne_input w
  have hai := arch_ne_input w ta
  have hao := arch_ne_output w ta
  have hpm2 : (process_message w t1 t2 none fs msg).2 = aset fs (resolvePath w fp) c := by
    simp [process_message, dispatch, handle_add_file, ha, hp, hpath, hcont, hfp]
  have hpay : aget (process_message w t1 t2 none fs msg).1 "payload" =
      some (.m [("status", "success"), ("message", "File created: " ++ fp),
                ("path", resolvePath w fp)]) := by
    simp [process_message, dispatch, handle_add_file, ha, hp, hpath, hcont, hfp, aset, aget]
  have hfs2in : aget (aset (process_message w t1 t2 none fs msg).2 (outputFile w)
      (write_response (process_message w t1 t2 none fs msg).1)) (inputFile w) = some content := by
    rw [aget_aset_ne _ _ _ _ hout, hpm2, aget_aset_ne _ _ _ _ hti, hin]
  rw [poll_once_unfold w t0 t1 t2 ta none fs content msg hin hrm]
  simp only [hfs2in]
  refine ⟨trivial, ?_, hpay⟩
  rw [aget_aset_ne _ _ _ _ (Ne.symm hta), aget_adel,
    if_neg (fun hh : resolvePath w fp = inputFile w => hti hh),
    aget_aset_ne _ _ _ _ (Ne.symm hto), hpm2, aget_aset_self]

/-- A well-formed `add_file` request used as the C6 witness. -/
def c6doc : String :=
  "---\naction: add_file\nfrom: cc\nfor: jules\npayload:\n  contents: hi there\n  path: notes/a.md\n---\ngo"

/-- Witness for C6 at a concrete `add_file` document. -/
theorem C6_add_file_witness :
    (poll_once "/w" "t0" "t1" "t2" "ts" none [(inputFile "/w", c6doc)]).1 = true ∧
    aget (poll_once "/w" "t0" "t1" "t2" "ts" none [(inputFile "/w", c6doc)]).2
      (resolvePath "/w" "notes/a.md") = some "hi there" ∧
    aget (process_message "/w" "t1" "t2" none [(inputFile "/w", c6doc)]
      [("action", .s "add_file"), ("from", .s "cc"), ("for", .s "jules"),
       ("payload", .m [("contents", "hi there"), ("path", "notes/a.md")]),
       ("body", .s "go")]).1 "payload" =
      some (.m [("status", "success"), ("message", "File created: " ++ "notes/a.md"),
                ("path", resolvePath "/w" "notes/a.md")]) :=
  C6_add_file "/w" "t0" "t1" "t2" "ts" [(inputFile "/w", c6doc)] c6doc "notes/a.md" "hi there"
    [("action", .s "add_file"), ("from", .s "cc"), ("for", .s "jules"),
     ("payload", .m [("contents", "hi there"), ("path", "notes/a.md")]),
     ("body", .s "go")]
    [("contents", "hi there"), ("path", "notes/a.md")]
    (by decide) (by decide) (by decide) (by decide) (by decide) (by decide) (by decide)
    (by decide) (by decide) (by decide)

/-! ### Round-trip infrastructure: prefixes, occurrences, splits -/

theorem mk_data (s : String) : String.mk s.data = s := rfl

theorem leadsWith_le_length (p u : List Char) (h : leadsWith p u = true) :
    p.length ≤ u.length := by
  induction p generalizing u with
  | nil => simp
  | cons a p' ih =>
    cases u with
    | nil => simp [leadsWith] at h
    | cons b u' =>
      simp only [leadsWith, Bool.and_eq_true] at h
      simpa using ih u' h.2

theorem containsSub_of_leadsWith (sep s : List Char) (h : leadsWith sep s = true) :
    containsSub sep s = true := by
  cases s with
  | nil => simpa [containsSub] using h
  | cons c rest => simp [containsSub, h]

theorem leadsWith_of_le (p u v : List Char) (h : leadsWith p (u ++ v) = true)
    (hl : p.length ≤ u.length) : leadsWith p u = true := by
  induction p generalizing u with
  | nil => simp [leadsWith]
  | cons a p' ih =>
    cases u with
    | nil => simp at hl
    | cons b u' =>
      simp only [List.cons_append, leadsWith, Bool.and_eq_true] at h ⊢
      exact ⟨h.1, ih u' h.2 (by simpa using hl)⟩

theorem head_mem_of_leadsWith_long (p u : List Char) (d : Char) (rest : List Char)
    (h : leadsWith p (u ++ d :: rest) = true) (hl : u.length < p.length) : d ∈ p := by
  induction u generalizing p with
  | nil =>
    cases p with
    | nil => simp at hl
    | cons a p' =>
      simp only [List.nil_append, leadsWith, Bool.and_eq_true, beq_iff_eq] at h
      simp [h.1]
  | cons b u' ih =>
    cases p with
    | nil => simp at hl
    | cons a p' =>
      simp only [List.cons_append, leadsWith, Bool.and_eq_true] at h
      exact List.mem_cons_of_mem a (ih p' h.2 (by simpa using hl))

theorem last_mem_of_leadsWith (p u v : List Char) (h : leadsWith p (u ++ v) = true)
    (hl : u.length ≤ p.length) :
    ∀ c, u.getLast? = some c → c ∈ p := by
  induction u generalizing p with
  | nil => simp
  | cons b u' ih =>
    intro c hc
    cases p with
    | nil => simp at hl
    | cons a p' =>
      simp only [List.cons_append, leadsWith, Bool.and_eq_true, beq_iff_eq] at h
      cases u' with
      | nil =>
        simp at hc
        subst hc
        simp [← h.1]
      | cons b2 u2 =>
        rw [List.getLast?_cons_cons] at hc
        exact List.mem_cons_of_mem a (ih p' h.2 (by simpa using hl) c hc)

theorem leadsWith_head_ne (s0 : List Char) (a c : Char) (l : List Char) (hne : c ≠ a) :
    leadsWith (a :: s0) (c :: l) = false := by
  have hb : (a == c) = false := beq_eq_false_iff_ne.mpr (fun hh => hne hh.symm)
  simp [leadsWith, hb]

theorem containsSub_cons_head_ne (a : Char) (s0 : List Char) (c : Char) (l : List Char)
    (hne : c ≠ a) :
    containsSub (a :: s0) (c :: l) = containsSub (a :: s0) l := by
  simp [containsSub, leadsWith_head_ne s0 a c l hne]

theorem not_containsSub_append (sep x z : List Char) (hsep : sep ≠ [])
    (hx : containsSub sep x = false) (hz : containsSub sep z = false)
    (hhead : ∀ c, z.head? = some c → c ∉ sep) :
    containsSub sep (x ++ z) = false := by
  induction x with
  | nil => simpa using hz
  | cons c x' ih =>
    simp only [containsSub, Bool.or_eq_false_iff] at hx
    have hrec := ih hx.2
    simp only [List.cons_append, containsSub, Bool.or_eq_false_iff]
    refine ⟨?_, hrec⟩
    by_cases hlw : leadsWith sep (c :: x' ++ z) = true
    · exfalso
      by_cases hlen : sep.length ≤ (c :: x').length
      · have hcl := leadsWith_of_le sep (c :: x') z (by simpa using hlw) hlen
        simp [hx.1] at hcl
      · push_neg at hlen
        cases z with
        | nil =>
          have hle := leadsWith_le_length sep (c :: x' ++ []) (by simpa using hlw)
          simp only [List.append_nil, List.length_cons] at hle
          simp only [List.length_cons] at hlen
          omega
        | cons d z' =>
          have hd := head_mem_of_leadsWith_long sep (c :: x') d z' (by simpa using hlw) hlen
          exact hhead d rfl hd
    · simpa using hlw

theorem not_containsSub_of_head_not_mem (a : Char) (s0 l : List Char) (h : a ∉ l) :
    containsSub (a :: s0) l = false := by
  induction l with
  | nil => simp [containsSub, leadsWith]
  | cons c t ih =>
    have hca : c ≠ a := fun hh => h (hh ▸ List.mem_cons_self c t)
    rw [containsSub_cons_head_ne a s0 c t hca]
    exact ih (fun hh => h (List.mem_cons_of_mem c hh))

theorem splitOnce_none (sep s : List Char) (hsep : sep ≠ [])
    (h : containsSub sep s = false) : splitOnce sep s = none := by
  induction s with
  | nil => simp [splitOnce]
  | cons c rest ih =>
    simp only [containsSub, Bool.or_eq_false_iff] at h
    simp [splitOnce, h.1, ih h.2]

theorem splitOnce_colon (k v : List Char) (hk : ':' ∉ k) :
    splitOnce ": ".data (k ++ ": ".data ++ v) = some (k, v) := by
  have hd : ": ".data = ':' :: ' ' :: [] := rfl
  rw [hd]
  induction k with
  | nil => simp [splitOnce, leadsWith]
  | cons c k' ih =>
    have hc : c ≠ ':' := fun hh => hk (hh ▸ List.mem_cons_self c k')
    have hk' : ':' ∉ k' := fun hh => hk (List.mem_cons_of_mem c hh)
    have hlw : leadsWith (':' :: ' ' :: []) (c :: (k' ++ (':' :: ' ' :: []) ++ v)) = false :=
      leadsWith_head_ne (' ' :: []) ':' c _ hc
    have hrec := ih hk'
    simp only [List.append_assoc, List.cons_append, List.nil_append] at hlw hrec ⊢
    simp only [splitOnce, hlw]
    simp [hrec]

theorem splitOnce_append (sep x z : List Char) (hsep : sep ≠ [])
    (hx : containsSub sep x = false)
    (hlast : ∀ c, x.getLast? = some c → c ∉ sep) :
    splitOnce sep (x ++ sep ++ z) = some (x, z) := by
  induction x with
  | nil =>
    cases sep with
    | nil => exact absurd rfl hsep
    | cons s0 sep' =>
      have hlw : leadsWith (s0 :: sep') ((s0 :: sep') ++ z) = true :=
        leadsWith_append_self (s0 :: sep') z
      have hdrop := List.drop_left (s0 :: sep') z
      simp only [List.cons_append] at hlw hdrop
      simp only [List.nil_append, List.cons_append, splitOnce, List.append_eq, hlw, if_true, hdrop]
  | cons c x' ih =>
    simp only [containsSub, Bool.or_eq_false_iff] at hx
    have hlw : leadsWith sep (c :: x' ++ sep ++ z) = false := by
      by_cases hl : leadsWith sep (c :: x' ++ sep ++ z) = true
      · exfalso
        by_cases hlen : sep.length ≤ (c :: x').length
        · have hcl := leadsWith_of_le sep (c :: x') (sep ++ z)
            (by simpa [List.append_assoc] using hl) hlen
          simp [hx.1] at hcl
        · push_neg at hlen
          have hmem := last_mem_of_leadsWith sep (c :: x') (sep ++ z)
            (by simpa [List.append_assoc] using hl) (Nat.le_of_lt hlen)
          rcases hgl : (c :: x').getLast? with _ | d
          · simp [List.getLast?_eq_none_iff] at hgl
          · exact hlast d hgl (hmem d hgl)
      · simpa using hl
    have hlast' : ∀ c2, x'.getLast? = some c2 → c2 ∉ sep := by
      intro c2 hc2
      refine hlast c2 ?_
      cases x' with
      | nil => simp at hc2
      | cons b t => rw [List.getLast?_cons_cons]; exact hc2
    have hrec := ih hx.2 hlast'
    simp only [List.append_assoc] at hlw hrec ⊢
    simp only [List.cons_append] at hlw
    simp [splitOnce, List.append_eq, hlw, hrec]

/-! ### Line joining and splitting -/

/-- Lines joined with single newlines (no terminator). -/
def interNl : List (List Char) → List Char
  | [] => []
  | [x] => x
  | x :: xs => x ++ '\n' :: interNl xs

theorem splitNl_no (s : List Char) (h : '\n' ∉ s) : splitNl s = [s] := by
  induction s with
  | nil => simp [splitNl]
  | cons c rest ih =>
    have hc : ¬(c = '\n') := fun hh => h (hh ▸ List.mem_cons_self c rest)
    have := ih (fun hh => h (List.mem_cons_of_mem c hh))
    simp [splitNl, hc, this]

theorem splitNl_append (l rest : List Char) (h : '\n' ∉ l) :
    splitNl (l ++ '\n' :: rest) = l :: splitNl rest := by
  induction l with
  | nil => simp [splitNl]
  | cons c t ih =>
    have hc : ¬(c = '\n') := fun hh => h (hh ▸ List.mem_cons_self c t)
    have := ih (fun hh => h (List.mem_cons_of_mem c hh))
    simp [splitNl, hc, this]

theorem splitNl_interNl (ls : List (List Char)) (h : ∀ l ∈ ls, '\n' ∉ l) (hne : ls ≠ []) :
    splitNl (interNl ls) = ls := by
  induction ls with
  | nil => exact absurd rfl hne
  | cons x xs ih =>
    cases xs with
    | nil => exact splitNl_no x (h x (List.mem_cons_self x []))
    | cons y t =>
      have hx : '\n' ∉ x := h x (List.mem_cons_self x (y :: t))
      have hrest : ∀ l ∈ y :: t, '\n' ∉ l := fun l hl => h l (List.mem_cons_of_mem x hl)
      show splitNl (x ++ '\n' :: interNl (y :: t)) = x :: y :: t
      rw [splitNl_append x _ hx, ih hrest (by simp)]

theorem foldrTerm_eq (ls : List (List Char)) (hne : ls ≠ []) :
    ls.foldr (fun l acc => l ++ '\n' :: acc) [] = interNl ls ++ ['\n'] := by
  induction ls with
  | nil => exact absurd rfl hne
  | cons x xs ih =>
    cases xs with
    | nil => simp [interNl]
    | cons y t =>
      show x ++ '\n' :: (y :: t).foldr (fun l acc => l ++ '\n' :: acc) [] =
        (x ++ '\n' :: interNl (y :: t)) ++ ['\n']
      rw [ih (by simp)]
      simp

theorem dropWhile_of_head_false (p : Char → Bool) (l : List Char)
    (h : ∀ c, l.head? = some c → p c = false) : l.dropWhile p = l := by
  cases l with
  | nil => rfl
  | cons c t =>
    rw [List.dropWhile_cons]
    simp [h c rfl]

theorem stripChars_wrap (m : List Char) (hm : m ≠ [])
    (hh : ∀ c, m.head? = some c → pySpace c = false)
    (hl : ∀ c, m.getLast? = some c → pySpace c = false) :
    stripChars ('\n' :: (m ++ ['\n'])) = m := by
  cases m with
  | nil => exact absurd rfl hm
  | cons c0 m' =>
    have hc0 : pySpace c0 = false := hh c0 rfl
    have hnl : pySpace '\n' = true := by decide
    unfold stripChars
    rw [List.dropWhile_cons]
    simp only [hnl, if_true]
    rw [List.cons_append, List.dropWhile_cons]
    simp only [hc0, Bool.false_eq_true, if_false]
    have h1 : (c0 :: (m' ++ ['\n'])).reverse = '\n' :: (c0 :: m').reverse := by
      simp
    rw [h1, List.dropWhile_cons]
    simp only [hnl, if_true]
    rw [dropWhile_of_head_false pySpace ((c0 :: m').reverse) ?hrev]
    · simp
    case hrev =>
      intro c hc
      rw [List.head?_reverse] at hc
      exact hl c hc

/-! ### Scalar codec round trip -/

theorem unq_escQ (l : List Char) : unq (escQ l ++ [sq]) = some l := by
  induction l with
  | nil => simp [escQ, unq]
  | cons c t ih =>
    by_cases hc : c = sq
    · subst hc
      show unq (escQ (sq :: t) ++ [sq]) = some (sq :: t)
      have hstep : unq (escQ (sq :: t) ++ [sq]) =
          (unq (escQ t ++ [sq])).map (fun l => sq :: l) := rfl
      rw [hstep, ih]
      rfl
    · have hesc : escQ (c :: t) = c :: escQ t := by
        simp [escQ, hc]
      rw [hesc]
      rcases hX : escQ t ++ [sq] with _ | ⟨d, ds⟩
      · exact absurd hX (by simp)
      · have hstep : unq ((c :: escQ t) ++ [sq]) = unq (c :: d :: ds) := by
          rw [List.cons_append, hX]
        rw [hstep]
        rw [show unq (c :: d :: ds) =
          (if c = sq then (if d = sq then (unq ds).map (fun l => sq :: l) else none)
           else (unq (d :: ds)).map (fun l => c :: l)) from rfl]
        rw [if_neg hc, ← hX, ih]
        rfl

theorem sq_not_alpha : sq.isAlpha = false := by decide

theorem parseScalarS_dumpScalar (v : String) : parseScalarS (dumpScalar v) = some v := by
  by_cases hp : plainOk v.data = true
  · rcases hv : v.data with _ | ⟨c, rest⟩
    · rw [hv] at hp
      exact absurd hp (by decide)
    · have halpha : c.isAlpha = true := by
        rw [hv] at hp
        simp only [plainOk, Bool.and_eq_true] at hp
        exact hp.1.1
      have hcsq : ¬(c = sq) := by
        intro hh
        rw [hh, sq_not_alpha] at halpha
        exact Bool.noConfusion halpha
      rw [dumpScalar, if_pos (hv ▸ hp), hv]
      rw [show parseScalarS (c :: rest) =
        (if c = sq then (unq rest).map String.mk
         else if plainOk (c :: rest) then some (String.mk (c :: rest)) else none) from rfl]
      rw [if_neg hcsq, if_pos (hv ▸ hp)]
      rw [← hv, mk_data]
  · rw [dumpScalar, if_neg hp, List.cons_append]
    rw [show parseScalarS (sq :: (escQ v.data ++ [sq])) =
      (unq (escQ v.data ++ [sq])).map String.mk from rfl]
    rw [unq_escQ]
    simp [mk_data]

theorem dumpScalar_ne_braces (v : String) : dumpScalar v ≠ "\x7b\x7d".data := by
  by_cases hp : plainOk v.data = true
  · rw [dumpScalar, if_pos hp]
    intro hh
    rw [hh] at hp
    exact absurd hp (by decide)
  · rw [dumpScalar, if_neg hp]
    intro hh
    have h2 := congrArg (fun l => l.head?) hh
    simp at h2
    exact absurd h2 (by decide)

theorem parseScalar_dumpScalar (v : String) : parseScalar (dumpScalar v) = some (.s v) := by
  rw [parseScalar, if_neg (dumpScalar_ne_braces v), parseScalarS_dumpScalar]
  rfl

/-! ### Characters of escaped and plain scalars -/

theorem mem_escQ (c : Char) (l : List Char) (h : c ∈ escQ l) : c ∈ l ∨ c = sq := by
  induction l with
  | nil => simp [escQ] at h
  | cons d t ih =>
    by_cases hd : d = sq
    · subst hd
      have h2 : c ∈ sq :: sq :: escQ t := h
      rcases List.mem_cons.mp h2 with h3 | h3
      · exact Or.inr h3
      · rcases List.mem_cons.mp h3 with h4 | h4
        · exact Or.inr h4
        · rcases ih h4 with h5 | h5
          · exact Or.inl (List.mem_cons_of_mem sq h5)
          · exact Or.inr h5
    · have hesc : escQ (d :: t) = d :: escQ t := by simp [escQ, hd]
      rw [hesc] at h
      rcases List.mem_cons.mp h with h3 | h3
      · exact Or.inl (h3 ▸ List.mem_cons_self d t)
      · rcases ih h3 with h5 | h5
        · exact Or.inl (List.mem_cons_of_mem d h5)
        · exact Or.inr h5

theorem leadsWith_escQ (p u : List Char) (hp : sq ∉ p) (h : leadsWith p (escQ u) = true) :
    leadsWith p u = true := by
  induction u generalizing p with
  | nil =>
    cases p with
    | nil => rfl
    | cons d ds => simp [escQ, leadsWith] at h
  | cons e u' ih =>
    cases p with
    | nil => rfl
    | cons d ds =>
      have hd : d ≠ sq := fun hh => hp (hh ▸ List.mem_cons_self d ds)
      have hds : sq ∉ ds := fun hh => hp (List.mem_cons_of_mem d hh)
      by_cases he : e = sq
      · subst he
        have h2 : leadsWith (d :: ds) (sq :: sq :: escQ u') = true := h
        simp only [leadsWith, Bool.and_eq_true, beq_iff_eq] at h2
        exact absurd h2.1 hd
      · have hesc : escQ (e :: u') = e :: escQ u' := by simp [escQ, he]
        rw [hesc] at h
        simp only [leadsWith, Bool.and_eq_true] at h ⊢
        exact ⟨h.1, ih ds hds h.2⟩

theorem not_sub_escQ (sep l : List Char) (hsq : sq ∉ sep) (hsep : sep ≠ [])
    (h : containsSub sep l = false) : containsSub sep (escQ l) = false := by
  induction l with
  | nil => simpa [escQ] using h
  | cons c t ih =>
    simp only [containsSub, Bool.or_eq_false_iff] at h
    have hrec := ih h.2
    cases sep with
    | nil => exact absurd rfl hsep
    | cons s0 sep' =>
      have hs0 : s0 ≠ sq := fun hh => hsq (hh ▸ List.mem_cons_self s0 sep')
      by_cases hc : c = sq
      · subst hc
        show containsSub (s0 :: sep') (sq :: sq :: escQ t) = false
        rw [containsSub_cons_head_ne s0 sep' sq _ (fun hh => hs0 hh.symm),
          containsSub_cons_head_ne s0 sep' sq _ (fun hh => hs0 hh.symm)]
        exact hrec
      · have hesc : escQ (c :: t) = c :: escQ t := by simp [escQ, hc]
        rw [hesc]
        simp only [containsSub, Bool.or_eq_false_iff]
        refine ⟨?_, hrec⟩
        by_cases hl : leadsWith (s0 :: sep') (c :: escQ t) = true
        · exfalso
          have h2 : leadsWith (s0 :: sep') (escQ (c :: t)) = true := by
            rw [hesc]
            exact hl
          have h3 := leadsWith_escQ (s0 :: sep') (c :: t) hsq h2
          simp [h.1] at h3
        · simpa using hl

/-! ### Well-formed field names and values -/

/-- A field name the document format round-trips: nonempty, made of
alphanumerics and underscores (as all of the program's schema keys are). -/
def wfKey (k : String) : Bool :=
  !k.data.isEmpty && k.data.all (fun c => c.isAlphanum || c = '_')

/-- A field value the document format round-trips: no newline and no
occurrence of the `---` delimiter. -/
def wfVal (v : String) : Bool :=
  !(v.data.contains '\n') && !(containsSub "---".data v.data)

theorem wfKey_ne_nil (k : String) (h : wfKey k = true) : k.data ≠ [] := by
  simp only [wfKey, Bool.and_eq_true, Bool.not_eq_true'] at h
  simpa [List.isEmpty_iff] using h.1

theorem wfKey_mem (k : String) (h : wfKey k = true) :
    ∀ c ∈ k.data, (c.isAlphanum || c = '_') = true := by
  simp only [wfKey, Bool.and_eq_true, List.all_eq_true] at h
  exact h.2

theorem wfKey_not_mem (k : String) (h : wfKey k = true) (d : Char)
    (hd : (d.isAlphanum || d = '_') = false) : d ∉ k.data := by
  intro hmem
  have := wfKey_mem k h d hmem
  rw [this] at hd
  exact Bool.noConfusion hd

theorem wfVal_nl (v : String) (h : wfVal v = true) : '\n' ∉ v.data := by
  simp only [wfVal, Bool.and_eq_true, Bool.not_eq_true'] at h
  simpa using h.1

theorem wfVal_sub (v : String) (h : wfVal v = true) :
    containsSub "---".data v.data = false := by
  simp only [wfVal, Bool.and_eq_true, Bool.not_eq_true'] at h
  exact h.2

theorem pySpace_eq_false (c : Char) (h1 : c ≠ ' ') (h2 : c ≠ '\t') (h3 : c ≠ '\n')
    (h4 : c ≠ '\r') (h5 : c ≠ Char.ofNat 11) (h6 : c ≠ Char.ofNat 12) :
    pySpace c = false := by
  simp [pySpace, h1, h2, h3, h4, h5, h6]

theorem keyChar_ne (c : Char) (h : (c.isAlphanum || c = '_') = true) (d : Char)
    (hd : (d.isAlphanum || d = '_') = false) : c ≠ d := by
  intro hh
  subst hh
  rw [h] at hd
  exact Bool.noConfusion hd

theorem keyChar_not_pySpace (c : Char) (h : (c.isAlphanum || c = '_') = true) :
    pySpace c = false :=
  pySpace_eq_false c (keyChar_ne c h ' ' (by decide)) (keyChar_ne c h '\t' (by decide))
    (keyChar_ne c h '\n' (by decide)) (keyChar_ne c h '\r' (by decide))
    (keyChar_ne c h (Char.ofNat 11) (by decide)) (keyChar_ne c h (Char.ofNat 12) (by decide))

theorem plainChar_ne (c : Char) (h : plainChar c = true) (d : Char)
    (hd : plainChar d = false) : c ≠ d := by
  intro hh
  subst hh
  rw [h] at hd
  exact Bool.noConfusion hd

theorem plainChar_not_pySpace (c : Char) (h : plainChar c = true) (hs : c ≠ ' ') :
    pySpace c = false :=
  pySpace_eq_false c hs (plainChar_ne c h '\t' (by decide))
    (plainChar_ne c h '\n' (by decide)) (plainChar_ne c h '\r' (by decide))
    (plainChar_ne c h (Char.ofNat 11) (by decide)) (plainChar_ne c h (Char.ofNat 12) (by decide))

theorem mem_of_getLast? {α : Type} (l : List α) (a : α) (h : l.getLast? = some a) :
    a ∈ l := by
  induction l with
  | nil => simp at h
  | cons b t ih =>
    cases t with
    | nil =>
      simp at h
      simp [h]
    | cons b2 t2 =>
      rw [List.getLast?_cons_cons] at h
      exact List.mem_cons_of_mem b (ih h)

theorem plainOk_props (l : List Char) (h : plainOk l = true) :
    l ≠ [] ∧ (∀ c, l.head? = some c → c.isAlpha = true) ∧
    (∀ c ∈ l, plainChar c = true) ∧
    (∀ c, l.getLast? = some c → plainChar c = true ∧ c ≠ ' ') := by
  cases l with
  | nil => exact absurd h (by decide)
  | cons c0 rest =>
    simp only [plainOk, Bool.and_eq_true, List.all_eq_true, Bool.not_eq_true',
      decide_eq_false_iff_not] at h
    refine ⟨by simp, ?_, h.1.2, ?_⟩
    · intro c hc
      simp at hc
      exact hc ▸ h.1.1
    · intro c hc
      have hlast : (c0 :: rest).getLastD ' ' = c := by
        rw [List.getLastD_eq_getLast?, hc]
        rfl
      refine ⟨h.1.2 c ?_, ?_⟩
      · exact mem_of_getLast? (c0 :: rest) c hc
      · rw [← hlast]
        exact fun hh => h.2 (hlast ▸ hh)

/-! ### Facts about emitted scalars and lines -/

theorem dumpScalar_ne_nil (v : String) : dumpScalar v ≠ [] := by
  by_cases hp : plainOk v.data = true
  · rw [dumpScalar, if_pos hp]
    exact (plainOk_props v.data hp).1
  · rw [dumpScalar, if_neg hp]
    simp

theorem dumpScalar_nl (v : String) (hv : wfVal v = true) : '\n' ∉ dumpScalar v := by
  by_cases hp : plainOk v.data = true
  · rw [dumpScalar, if_pos hp]
    exact wfVal_nl v hv
  · rw [dumpScalar, if_neg hp]
    intro hmem
    rcases List.mem_cons.mp hmem with h1 | h1
    · exact absurd h1.symm (by decide)
    · rcases List.mem_append.mp h1 with h2 | h2
      · rcases mem_escQ '\n' v.data h2 with h3 | h3
        · exact wfVal_nl v hv h3
        · exact absurd h3 (by decide)
      · simp at h2
        exact absurd h2 (by decide)

theorem dumpScalar_sub (v : String) (hv : wfVal v = true) :
    containsSub "---".data (dumpScalar v) = false := by
  by_cases hp : plainOk v.data = true
  · rw [dumpScalar, if_pos hp]
    exact wfVal_sub v hv
  · rw [dumpScalar, if_neg hp, List.cons_append]
    have hd : "---".data = '-' :: "--".data := rfl
    rw [hd, containsSub_cons_head_ne '-' "--".data sq _ (by decide), ← hd]
    refine not_containsSub_append "---".data (escQ v.data) [sq] (by decide) ?_ (by decide) ?_
    · exact not_sub_escQ "---".data v.data (by decide) (by decide) (wfVal_sub v hv)
    · intro c hc
      simp at hc
      subst hc
      decide

theorem dumpScalar_last (v : String) :
    ∀ c, (dumpScalar v).getLast? = some c → pySpace c = false := by
  intro c hc
  by_cases hp : plainOk v.data = true
  · rw [dumpScalar, if_pos hp] at hc
    have := (plainOk_props v.data hp).2.2.2 c hc
    exact plainChar_not_pySpace c this.1 this.2
  · rw [dumpScalar, if_neg hp, List.cons_append] at hc
    have h2 : (sq :: (escQ v.data ++ [sq])).getLast? = some sq := by
      have h3 : sq :: (escQ v.data ++ [sq]) = (sq :: escQ v.data) ++ [sq] := by simp
      rw [h3]
      exact List.getLast?_concat _
    rw [hc] at h2
    simp at h2
    subst h2
    decide

theorem dumpScalar_head_notdash (v : String) :
    ∀ c, (dumpScalar v).head? = some c → c ∉ "---".data := by
  intro c hc
  by_cases hp : plainOk v.data = true
  · rw [dumpScalar, if_pos hp] at hc
    have halpha := (plainOk_props v.data hp).2.1 c hc
    intro hmem
    have : c = '-' := by
      simp at hmem
      exact hmem
    rw [this] at halpha
    exact absurd halpha (by decide)
  · rw [dumpScalar, if_neg hp] at hc
    simp at hc
    subst hc
    decide

/-- The emitted line of a top-level scalar entry. -/
def scalarLine (k v : String) : List Char := k.data ++ ": ".data ++ dumpScalar v

theorem head?_append_left {α : Type} (l l2 : List α) (hl : l ≠ []) :
    (l ++ l2).head? = l.head? := by
  cases l with
  | nil => exact absurd rfl hl
  | cons a t => simp

theorem scalarLine_facts (k v : String) (hk : wfKey k = true) (hv : wfVal v = true) :
    scalarLine k v ≠ [] ∧ '\n' ∉ scalarLine k v ∧
    containsSub "---".data (scalarLine k v) = false ∧
    (∀ c, (scalarLine k v).head? = some c → pySpace c = false) ∧
    (∀ c, (scalarLine k v).getLast? = some c → pySpace c = false) := by
  refine ⟨?_, ?_, ?_, ?_, ?_⟩
  · simp only [scalarLine]
    intro hh
    rw [List.append_assoc] at hh
    rcases List.append_eq_nil.mp hh with ⟨h1, _⟩
    exact wfKey_ne_nil k hk h1
  · simp only [scalarLine, List.append_assoc]
    intro hmem
    rcases List.mem_append.mp hmem with h1 | h1
    · exact wfKey_not_mem k hk '\n' (by decide) h1
    · rcases List.mem_append.mp h1 with h2 | h2
      · simp at h2
      · exact dumpScalar_nl v hv h2
  · simp only [scalarLine, List.append_assoc]
    have hd : "---".data = '-' :: "--".data := rfl
    refine not_containsSub_append "---".data k.data (": ".data ++ dumpScalar v)
      (by decide) ?_ ?_ ?_
    · rw [hd]
      exact not_containsSub_of_head_not_mem '-' "--".data k.data
        (wfKey_not_mem k hk '-' (by decide))
    · refine not_containsSub_append "---".data ": ".data (dumpScalar v)
        (by decide) (by decide) (dumpScalar_sub v hv) ?_
      · exact dumpScalar_head_notdash v
    · intro c hc
      rw [head?_append_left ": ".data (dumpScalar v) (by decide)] at hc
      simp at hc
      subst hc
      decide
  · intro c hc
    rcases hkd : k.data with _ | ⟨c0, rest⟩
    · exact absurd hkd (wfKey_ne_nil k hk)
    · simp only [scalarLine, hkd, List.cons_append, List.head?_cons] at hc
      have hc0 := wfKey_mem k hk c0 (by rw [hkd]; exact List.mem_cons_self c0 rest)
      cases hc
      exact keyChar_not_pySpace c hc0
  · intro c hc
    simp only [scalarLine, List.append_assoc] at hc
    rw [List.getLast?_append_of_ne_nil _ (by
      intro hh
      rcases List.append_eq_nil.mp hh with ⟨_, h2⟩
      exact dumpScalar_ne_nil v h2)] at hc
    rw [List.getLast?_append_of_ne_nil _ (dumpScalar_ne_nil v)] at hc
    exact dumpScalar_last v c hc

theorem nestLine_facts (e : String × String) (hk : wfKey e.1 = true) (hv : wfVal e.2 = true) :
    nestLine e ≠ [] ∧ '\n' ∉ nestLine e ∧
    containsSub "---".data (nestLine e) = false ∧
    (∀ c, (nestLine e).getLast? = some c → pySpace c = false) := by
  have hsl := scalarLine_facts e.1 e.2 hk hv
  have hshape : nestLine e = "  ".data ++ scalarLine e.1 e.2 := by
    simp [nestLine, scalarLine, List.append_assoc]
  refine ⟨?_, ?_, ?_, ?_⟩
  · rw [hshape]
    simp
  · rw [hshape]
    intro hmem
    rcases List.mem_append.mp hmem with h1 | h1
    · simp at h1
    · exact hsl.2.1 h1
  · rw [hshape]
    refine not_containsSub_append "---".data "  ".data (scalarLine e.1 e.2)
      (by decide) (by decide) hsl.2.2.1 ?_
    intro c hc
    rcases hkd : e.1.data with _ | ⟨c0, rest⟩
    · exact absurd hkd (wfKey_ne_nil e.1 hk)
    · simp only [scalarLine, hkd, List.cons_append, List.head?_cons] at hc
      have hc0 := wfKey_mem e.1 hk c0 (by rw [hkd]; exact List.mem_cons_self c0 rest)
      have hceq : c0 = c := by simpa using hc
      intro hmem
      have hd2 : c = '-' := by simpa using hmem
      rw [hceq, hd2] at hc0
      exact absurd hc0 (by decide)
  · intro c hc
    rw [hshape, List.getLast?_append_of_ne_nil _ hsl.1] at hc
    exact hsl.2.2.2.2 c hc

/-! ### Joined-lines facts -/

theorem interNl_ne_nil (x : List Char) (ls : List (List Char)) (hx : x ≠ []) :
    interNl (x :: ls) ≠ [] := by
  cases ls with
  | nil => exact hx
  | cons y t =>
    show x ++ '\n' :: interNl (y :: t) ≠ []
    simp

theorem getLast?_cons_of_ne_nil {α : Type} (a : α) (l : List α) (h : l ≠ []) :
    (a :: l).getLast? = l.getLast? := by
  cases l with
  | nil => exact absurd rfl h
  | cons b t => rw [List.getLast?_cons_cons]

theorem not_sub_interNl (sep : List Char) (hsep : sep ≠ []) (hnl : '\n' ∉ sep)
    (ls : List (List Char)) (h : ∀ l ∈ ls, containsSub sep l = false) :
    containsSub sep (interNl ls) = false := by
  induction ls with
  | nil =>
    cases sep with
    | nil => exact absurd rfl hsep
    | cons s0 sep' => simp [interNl, containsSub, leadsWith]
  | cons x xs ih =>
    cases xs with
    | nil => exact h x (List.mem_cons_self x [])
    | cons y t =>
      have hx := h x (List.mem_cons_self x (y :: t))
      have hrest := ih (fun l hl => h l (List.mem_cons_of_mem x hl))
      show containsSub sep (x ++ '\n' :: interNl (y :: t)) = false
      refine not_containsSub_append sep x ('\n' :: interNl (y :: t)) hsep hx ?_ ?_
      · cases sep with
        | nil => exact absurd rfl hsep
        | cons s0 sep' =>
          have hs0 : '\n' ≠ s0 := by
            intro hh
            exact hnl (hh ▸ List.mem_cons_self s0 sep')
          rw [containsSub_cons_head_ne s0 sep' '\n' _ hs0]
          exact hrest
      · intro c hc
        simp at hc
        subst hc
        exact hnl

theorem interNl_nl_free (ls : List (List Char)) (h : ∀ l ∈ ls, '\n' ∉ l) :
    splitNl (interNl ls) = ls ∨ ls = [] := by
  cases ls with
  | nil => exact Or.inr rfl
  | cons x xs => exact Or.inl (splitNl_interNl (x :: xs) h (by simp))

theorem interNl_head_nospace (x : List Char) (ls : List (List Char)) (hx : x ≠ [])
    (hh : ∀ c, x.head? = some c → pySpace c = false) :
    ∀ c, (interNl (x :: ls)).head? = some c → pySpace c = false := by
  intro c hc
  cases ls with
  | nil => exact hh c hc
  | cons y t =>
    rw [show interNl (x :: y :: t) = x ++ '\n' :: interNl (y :: t) from rfl,
      head?_append_left x _ hx] at hc
    exact hh c hc

theorem interNl_last_nospace (ls : List (List Char))
    (hne : ∀ l ∈ ls, l ≠ [])
    (h : ∀ l ∈ ls, ∀ c, l.getLast? = some c → pySpace c = false) :
    ∀ c, (interNl ls).getLast? = some c → pySpace c = false := by
  induction ls with
  | nil => intro c hc; simp [interNl] at hc
  | cons x xs ih =>
    intro c hc
    cases xs with
    | nil => exact h x (List.mem_cons_self x []) c hc
    | cons y t =>
      rw [show interNl (x :: y :: t) = x ++ '\n' :: interNl (y :: t) from rfl] at hc
      have hy : interNl (y :: t) ≠ [] :=
        interNl_ne_nil y t (hne y (List.mem_cons_of_mem x (List.mem_cons_self y t)))
      rw [List.getLast?_append_of_ne_nil _ (by simp),
        getLast?_cons_of_ne_nil '\n' _ hy] at hc
      exact ih (fun l hl => hne l (List.mem_cons_of_mem x hl))
        (fun l hl => h l (List.mem_cons_of_mem x hl)) c hc

/-! ### Sorting and duplicate-key laws -/

theorem insE_perm {α : Type} (e : String × α) (l : List (String × α)) :
    List.Perm (insE e l) (e :: l) := by
  induction l with
  | nil => exact List.Perm.refl _
  | cons x t ih =>
    by_cases hle : keyLe e.1 x.1 = true
    · simp [insE, hle]
    · simp only [insE, hle, if_false, Bool.false_eq_true]
      exact (List.Perm.cons x ih).trans (List.Perm.swap e x t)

theorem sortE_perm {α : Type} (l : List (String × α)) : List.Perm (sortE l) l := by
  induction l with
  | nil => exact List.Perm.refl _
  | cons e t ih =>
    show List.Perm (insE e (sortE t)) (e :: t)
    exact (insE_perm e (sortE t)).trans (List.Perm.cons e ih)

theorem sortE_mem {α : Type} (l : List (String × α)) (e : String × α) (h : e ∈ sortE l) :
    e ∈ l := (sortE_perm l).mem_iff.mp h

theorem sortE_pairwise {α : Type} (l : List (String × α))
    (h : l.Pairwise (fun a b => a.1 ≠ b.1)) :
    (sortE l).Pairwise (fun a b => a.1 ≠ b.1) := by
  refine (List.Perm.pairwise_iff ?_ (sortE_perm l)).mpr h
  intro a b hab
  exact hab.symm

theorem sortE_ne_nil {α : Type} (l : List (String × α)) (h : l ≠ []) : sortE l ≠ [] := by
  intro hh
  apply h
  have hlen := (sortE_perm l).length_eq
  rw [hh] at hlen
  exact List.eq_nil_of_length_eq_zero hlen.symm

theorem aget_append_none {α : Type} (a b : List (String × α)) (k : String)
    (h : aget a k = none) : aget (a ++ b) k = aget b k := by
  induction a with
  | nil => simp
  | cons e t ih =>
    by_cases he : e.1 = k
    · simp [aget, he] at h
    · simp only [aget, he, if_false] at h
      simp only [List.cons_append, aget, he, if_false]
      exact ih h

theorem dedup_go {α : Type} (l : List (String × α)) :
    ∀ acc, (∀ e ∈ l, aget acc e.1 = none) → l.Pairwise (fun a b => a.1 ≠ b.1) →
    l.foldl (fun m e => aset m e.1 e.2) acc = acc ++ l := by
  induction l with
  | nil => intro acc _ _; simp
  | cons e t ih =>
    intro acc hget hnd
    rw [List.pairwise_cons] at hnd
    have hstep : aset acc e.1 e.2 = acc ++ [e] := by
      rw [aset_not_mem_append acc e.1 e.2 (hget e (List.mem_cons_self e t))]
    show t.foldl (fun m e => aset m e.1 e.2) (aset acc e.1 e.2) = acc ++ e :: t
    rw [hstep, ih (acc ++ [e]) ?hnone hnd.2]
    · simp
    case hnone =>
      intro e2 he2
      rw [aget_append_none acc [e] e2.1 (hget e2 (List.mem_cons_of_mem e he2))]
      have hne : e.1 ≠ e2.1 := hnd.1 e2 he2
      simp [aget, hne]

theorem dedup_nodup {α : Type} (l : List (String × α))
    (hnd : l.Pairwise (fun a b => a.1 ≠ b.1)) : dedup l = l := by
  have := dedup_go l [] (by intro e _; rfl) hnd
  simpa [dedup] using this

/-! ### Parser steps over emitted lines -/

theorem parseNestedLine_nest (e : String × String) (hk : wfKey e.1 = true) :
    parseNestedLine (nestLine e) = some e := by
  rcases hkd : e.1.data with _ | ⟨c0, rest⟩
  · exact absurd hkd (wfKey_ne_nil e.1 hk)
  · have hc0 := wfKey_mem e.1 hk c0 (by rw [hkd]; exact List.mem_cons_self c0 rest)
    have hshape : nestLine e = ' ' :: ' ' :: (e.1.data ++ ": ".data ++ dumpScalar e.2) := by
      simp [nestLine, List.append_assoc]
    rw [hshape]
    rw [show parseNestedLine (' ' :: ' ' :: (e.1.data ++ ": ".data ++ dumpScalar e.2)) =
      (if leadsWith [' '] (e.1.data ++ ": ".data ++ dumpScalar e.2) then none
       else match splitOnce ": ".data (e.1.data ++ ": ".data ++ dumpScalar e.2) with
        | some (k, vraw) => (parseScalarS vraw).map (fun v => (String.mk k, v))
        | none => none) from rfl]
    have hlw : leadsWith [' '] (e.1.data ++ ": ".data ++ dumpScalar e.2) = false := by
      rw [List.append_assoc, hkd, List.cons_append]
      exact leadsWith_head_ne [] ' ' c0 _ (keyChar_ne c0 hc0 ' ' (by decide))
    rw [if_neg (by rw [hlw]; exact Bool.noConfusion)]
    rw [splitOnce_colon e.1.data (dumpScalar e.2)
      (wfKey_not_mem e.1 hk ':' (by decide))]
    simp [parseScalarS_dumpScalar, mk_data]

theorem mapOpt_nest (ls : List (String × String)) (h : ∀ e ∈ ls, wfKey e.1 = true) :
    mapOpt parseNestedLine (ls.map nestLine) = some ls := by
  induction ls with
  | nil => rfl
  | cons e t ih =>
    have he := h e (List.mem_cons_self e t)
    have ht := ih (fun e2 h2 => h e2 (List.mem_cons_of_mem e h2))
    simp [mapOpt, parseNestedLine_nest e he, ht]

theorem pStep_indent_fold (nls : List (String × String)) (pending : List (List Char))
    (tail : List (String × Val)) :
    (nls.map nestLine).foldr pStep (pending, some tail) =
      (nls.map nestLine ++ pending, some tail) := by
  induction nls with
  | nil => simp
  | cons e t ih =>
    simp only [List.map_cons, List.foldr_cons, ih]
    have hlw : leadsWith [' '] (nestLine e) = true := by
      rw [show nestLine e = ' ' :: (' ' :: (e.1.data ++ (": ".data ++ dumpScalar e.2))) by
        simp [nestLine, List.append_assoc]]
      rfl
    simp [pStep, hlw]

theorem pStep_scalar (k v : String) (tail : List (String × Val)) (hk : wfKey k = true) :
    pStep (scalarLine k v) ([], some tail) = ([], some ((k, .s v) :: tail)) := by
  rcases hkd : k.data with _ | ⟨c0, rest⟩
  · exact absurd hkd (wfKey_ne_nil k hk)
  · have hc0 := wfKey_mem k hk c0 (by rw [hkd]; exact List.mem_cons_self c0 rest)
    have hlw : leadsWith [' '] (scalarLine k v) = false := by
      rw [scalarLine, List.append_assoc, hkd, List.cons_append]
      exact leadsWith_head_ne [] ' ' c0 _ (keyChar_ne c0 hc0 ' ' (by decide))
    simp only [pStep, hlw, Bool.false_eq_true, if_false]
    rw [show scalarLine k v = k.data ++ ": ".data ++ dumpScalar v from rfl]
    rw [splitOnce_colon k.data (dumpScalar v) (wfKey_not_mem k hk ':' (by decide))]
    simp [parseScalar_dumpScalar, mk_data]

theorem pStep_payload_header (p : List (String × String)) (tail : List (String × Val))
    (hwf : ∀ e ∈ p, wfKey e.1 = true) (hnd : p.Pairwise (fun a b => a.1 ≠ b.1))
    (hp : p ≠ []) :
    pStep ("payload".data ++ [':']) ((sortE p).map nestLine, some tail) =
      ([], some (("payload", Val.m (sortE p)) :: tail)) := by
  have hlw : leadsWith [' '] ("payload".data ++ [':']) = false := by decide
  have hsp : splitOnce ": ".data ("payload".data ++ [':']) = none := by decide
  have hgl : ("payload".data ++ [':']).getLast? = some ':' := by decide
  have hpend : (sortE p).map nestLine ≠ [] := by
    intro hh
    exact sortE_ne_nil p hp (List.map_eq_nil.mp hh)
  have hmo : mapOpt parseNestedLine ((sortE p).map nestLine) = some (sortE p) :=
    mapOpt_nest (sortE p) (fun e he => hwf e (sortE_mem p e he))
  have hdd : dedup (sortE p) = sortE p := dedup_nodup (sortE p) (sortE_pairwise p hnd)
  have hdl : ("payload".data ++ [':']).dropLast = "payload".data := by decide
  simp only [pStep, hlw, Bool.false_eq_true, if_false, hsp, hgl, if_pos rfl, hpend, hmo, hdd, hdl]
  simp [mk_data]

/-! ### The payload block of the emitted document -/

theorem payloadLines_facts (p : List (String × String))
    (hp : ∀ e ∈ p, wfKey e.1 = true ∧ wfVal e.2 = true) :
    entryLines ("payload", Val.m p) ≠ [] ∧
    (∀ l ∈ entryLines ("payload", Val.m p),
      l ≠ [] ∧ '\n' ∉ l ∧ containsSub "---".data l = false ∧
      (∀ c, l.getLast? = some c → pySpace c = false)) := by
  cases p with
  | nil =>
    refine ⟨by simp [entryLines], ?_⟩
    intro l hl
    simp only [entryLines, List.mem_singleton] at hl
    subst hl
    refine ⟨by decide, by decide, by decide, ?_⟩
    intro c hc
    have hcc : c = Char.ofNat 125 := by
      have h2 : ("payload".data ++ ": \x7b\x7d".data).getLast? = some (Char.ofNat 125) := by
        decide
      rw [hc] at h2
      exact Option.some.inj h2
    subst hcc
    decide
  | cons q qs =>
    have hwf2 : ∀ e ∈ sortE (q :: qs), wfKey e.1 = true ∧ wfVal e.2 = true :=
      fun e he => hp e (sortE_mem (q :: qs) e he)
    refine ⟨by simp [entryLines], ?_⟩
    intro l hl
    rcases List.mem_cons.mp hl with h1 | h1
    · subst h1
      refine ⟨by decide, by decide, by decide, ?_⟩
      intro c hc
      have hcc : c = ':' := by
        have h2 : ("payload".data ++ [':']).getLast? = some ':' := by decide
        rw [hc] at h2
        exact Option.some.inj h2
      subst hcc
      decide
    · rcases List.mem_map.mp h1 with ⟨e, he, rfl⟩
      have hnf := nestLine_facts e (hwf2 e he).1 (hwf2 e he).2
      exact ⟨hnf.1, hnf.2.1, hnf.2.2.1, hnf.2.2.2⟩

theorem payloadLines_parse (p : List (String × String)) (tail : List (String × Val))
    (hwf : ∀ e ∈ p, wfKey e.1 = true ∧ wfVal e.2 = true)
    (hnd : p.Pairwise (fun a b => a.1 ≠ b.1)) :
    (entryLines ("payload", Val.m p)).foldr pStep ([], some tail) =
      ([], some (("payload", Val.m (sortE p)) :: tail)) := by
  cases p with
  | nil => rfl
  | cons q qs =>
    rw [show entryLines ("payload", Val.m (q :: qs)) =
      ("payload".data ++ [':']) :: (sortE (q :: qs)).map nestLine from rfl]
    rw [List.foldr_cons, pStep_indent_fold (sortE (q :: qs)) [] tail]
    rw [List.append_nil]
    exact pStep_payload_header (q :: qs) tail (fun e he => (hwf e he).1) hnd (by simp)

/-! ### The document round trip -/

theorem read_write_response (tR a f fr i : String) (p : List (String × String))
    (ha : wfVal a = true) (hf : wfVal f = true) (hfr : wfVal fr = true) (hi : wfVal i = true)
    (hp : ∀ e ∈ p, wfKey e.1 = true ∧ wfVal e.2 = true)
    (hnd : p.Pairwise (fun e e2 => e.1 ≠ e2.1)) :
    read_message tR (write_response
      [("id", Val.s i), ("from", Val.s fr), ("for", Val.s f), ("action", Val.s a),
       ("payload", Val.m p)]) =
    some (aset
      [("action", Val.s a), ("for", Val.s f), ("from", Val.s fr), ("id", Val.s i),
       ("payload", Val.m (sortE p))] "body"
      (Val.s (pyStrip (String.mk ('\n' :: '\n' :: ("Response to " ++ a).data))))) := by
  have hka : wfKey "action" = true := by decide
  have hkf : wfKey "for" = true := by decide
  have hkfr : wfKey "from" = true := by decide
  have hki : wfKey "id" = true := by decide
  have hfa := scalarLine_facts "action" a hka ha
  have hff := scalarLine_facts "for" f hkf hf
  have hffr := scalarLine_facts "from" fr hkfr hfr
  have hfi := scalarLine_facts "id" i hki hi
  have hpf := payloadLines_facts p hp
  -- the emitted lines
  have hL : yamlLines [("id", Val.s i), ("from", Val.s fr), ("for", Val.s f),
      ("action", Val.s a), ("payload", Val.m p)] =
      scalarLine "action" a :: scalarLine "for" f :: scalarLine "from" fr ::
        scalarLine "id" i :: entryLines ("payload", Val.m p) := by
    have hsort : sortE [("id", Val.s i), ("from", Val.s fr), ("for", Val.s f),
        ("action", Val.s a), ("payload", Val.m p)] =
        [("action", Val.s a), ("for", Val.s f), ("from", Val.s fr), ("id", Val.s i),
         ("payload", Val.m p)] := rfl
    simp [yamlLines, hsort, entryLines, scalarLine]
  -- per-line facts over the whole list
  have hLfacts : ∀ l ∈ (scalarLine "action" a :: scalarLine "for" f :: scalarLine "from" fr ::
      scalarLine "id" i :: entryLines ("payload", Val.m p)),
      l ≠ [] ∧ '\n' ∉ l ∧ containsSub "---".data l = false ∧
      (∀ c, l.getLast? = some c → pySpace c = false) := by
    intro l hl
    rcases List.mem_cons.mp hl with h1 | h1
    · subst h1; exact ⟨hfa.1, hfa.2.1, hfa.2.2.1, hfa.2.2.2.2⟩
    rcases List.mem_cons.mp h1 with h2 | h2
    · subst h2; exact ⟨hff.1, hff.2.1, hff.2.2.1, hff.2.2.2.2⟩
    rcases List.mem_cons.mp h2 with h3 | h3
    · subst h3; exact ⟨hffr.1, hffr.2.1, hffr.2.2.1, hffr.2.2.2.2⟩
    rcases List.mem_cons.mp h3 with h4 | h4
    · subst h4; exact ⟨hfi.1, hfi.2.1, hfi.2.2.1, hfi.2.2.2.2⟩
    · exact hpf.2 l h4
  -- the joined structured section
  have hIne : interNl (scalarLine "action" a :: scalarLine "for" f :: scalarLine "from" fr ::
      scalarLine "id" i :: entryLines ("payload", Val.m p)) ≠ [] :=
    interNl_ne_nil _ _ hfa.1
  have hIhead : ∀ c, (interNl (scalarLine "action" a :: scalarLine "for" f ::
      scalarLine "from" fr :: scalarLine "id" i :: entryLines ("payload", Val.m p))).head? =
      some c → pySpace c = false :=
    interNl_head_nospace _ _ hfa.1 hfa.2.2.2.1
  have hIlast : ∀ c, (interNl (scalarLine "action" a :: scalarLine "for" f ::
      scalarLine "from" fr :: scalarLine "id" i :: entryLines ("payload", Val.m p))).getLast? =
      some c → pySpace c = false :=
    interNl_last_nospace _ (fun l hl => (hLfacts l hl).1)
      (fun l hl => (hLfacts l hl).2.2.2)
  have hIsub : containsSub "---".data (interNl (scalarLine "action" a :: scalarLine "for" f ::
      scalarLine "from" fr :: scalarLine "id" i :: entryLines ("payload", Val.m p))) = false :=
    not_sub_interNl "---".data (by decide) (by decide) _
      (fun l hl => (hLfacts l hl).2.2.1)
  have hIsplit : splitNl (interNl (scalarLine "action" a :: scalarLine "for" f ::
      scalarLine "from" fr :: scalarLine "id" i :: entryLines ("payload", Val.m p))) =
      scalarLine "action" a :: scalarLine "for" f :: scalarLine "from" fr ::
        scalarLine "id" i :: entryLines ("payload", Val.m p) :=
    splitNl_interNl _ (fun l hl => (hLfacts l hl).2.1) (by simp)
  -- the document text, grouped around the two delimiters
  have htext : (write_response [("id", Val.s i), ("from", Val.s fr), ("for", Val.s f),
      ("action", Val.s a), ("payload", Val.m p)]).data =
      "---".data ++ (('\n' :: (interNl (scalarLine "action" a :: scalarLine "for" f ::
        scalarLine "from" fr :: scalarLine "id" i :: entryLines ("payload", Val.m p)) ++ ['\n'])) ++
        ("---".data ++ ('\n' :: '\n' :: ("Response to " ++ a).data))) := by
    have hyt : (yamlText [("id", Val.s i), ("from", Val.s fr), ("for", Val.s f),
        ("action", Val.s a), ("payload", Val.m p)]).data =
        interNl (scalarLine "action" a :: scalarLine "for" f :: scalarLine "from" fr ::
          scalarLine "id" i :: entryLines ("payload", Val.m p)) ++ ['\n'] := by
      show (yamlLines _).foldr (fun l acc => l ++ '\n' :: acc) [] = _
      rw [hL]
      exact foldrTerm_eq _ (by simp)
    have hwr : write_response [("id", Val.s i), ("from", Val.s fr), ("for", Val.s f),
        ("action", Val.s a), ("payload", Val.m p)] =
        "---\n" ++ yamlText [("id", Val.s i), ("from", Val.s fr), ("for", Val.s f),
          ("action", Val.s a), ("payload", Val.m p)] ++ "---\n\n" ++ ("Response to " ++ a) := rfl
    rw [hwr]
    simp only [data_append, hyt, List.append_assoc, List.cons_append, List.nil_append]
  -- the two delimiter splits
  have hxsub : containsSub "---".data ('\n' :: (interNl (scalarLine "action" a ::
      scalarLine "for" f :: scalarLine "from" fr :: scalarLine "id" i ::
      entryLines ("payload", Val.m p)) ++ ['\n'])) = false := by
    rw [containsSub_cons_head_ne '-' "--".data '\n' _ (by decide)]
    exact not_containsSub_append "---".data _ ['\n'] (by decide) hIsub (by decide)
      (by intro c hc; simp at hc; subst hc; decide)
  have hxlast : ∀ c, ('\n' :: (interNl (scalarLine "action" a :: scalarLine "for" f ::
      scalarLine "from" fr :: scalarLine "id" i :: entryLines ("payload", Val.m p)) ++
      ['\n'])).getLast? = some c → c ∉ "---".data := by
    intro c hc
    rw [getLast?_cons_of_ne_nil _ _ (by simp), List.getLast?_concat] at hc
    cases Option.some.inj hc
    decide
  have hs2 := splitOnce_append "---".data
    ('\n' :: (interNl (scalarLine "action" a :: scalarLine "for" f :: scalarLine "from" fr ::
      scalarLine "id" i :: entryLines ("payload", Val.m p)) ++ ['\n']))
    ('\n' :: '\n' :: ("Response to " ++ a).data) (by decide) hxsub hxlast
  have hs1 := splitOnce_append "---".data []
    (('\n' :: (interNl (scalarLine "action" a :: scalarLine "for" f :: scalarLine "from" fr ::
      scalarLine "id" i :: entryLines ("payload", Val.m p)) ++ ['\n'])) ++
      ("---".data ++ ('\n' :: '\n' :: ("Response to " ++ a).data)))
    (by decide) (by decide) (by intro c hc; simp at hc)
  -- the parse of the structured section
  have hfold : (scalarLine "action" a :: scalarLine "for" f :: scalarLine "from" fr ::
      scalarLine "id" i :: entryLines ("payload", Val.m p)).foldr pStep ([], some []) =
      ([], some [("action", Val.s a), ("for", Val.s f), ("from", Val.s fr), ("id", Val.s i),
        ("payload", Val.m (sortE p))]) := by
    rw [List.foldr_cons, List.foldr_cons, List.foldr_cons, List.foldr_cons,
      payloadLines_parse p [] hp hnd,
      pStep_scalar "id" i _ hki, pStep_scalar "from" fr _ hkfr,
      pStep_scalar "for" f _ hkf, pStep_scalar "action" a _ hka]
  have hparse : parseYaml (pyStrip (String.mk ('\n' :: (interNl (scalarLine "action" a ::
      scalarLine "for" f :: scalarLine "from" fr :: scalarLine "id" i ::
      entryLines ("payload", Val.m p)) ++ ['\n'])))) =
      some [("action", Val.s a), ("for", Val.s f), ("from", Val.s fr), ("id", Val.s i),
        ("payload", Val.m (sortE p))] := by
    have hstr : pyStrip (String.mk ('\n' :: (interNl (scalarLine "action" a ::
        scalarLine "for" f :: scalarLine "from" fr :: scalarLine "id" i ::
        entryLines ("payload", Val.m p)) ++ ['\n']))) =
        String.mk (interNl (scalarLine "action" a :: scalarLine "for" f ::
          scalarLine "from" fr :: scalarLine "id" i :: entryLines ("payload", Val.m p))) := by
      show String.mk (stripChars _) = _
      rw [stripChars_wrap _ hIne hIhead hIlast]
    rw [hstr]
    show (parseLines (splitNl _)).map dedup = _
    rw [hIsplit, parseLines, hfold]
    show some (dedup [("action", Val.s a), ("for", Val.s f), ("from", Val.s fr),
      ("id", Val.s i), ("payload", Val.m (sortE p))]) = _
    rw [dedup_nodup _ ?pw]
    case pw =>
      simp [List.pairwise_cons]
  -- assembling read_message
  rw [read_message]
  rw [if_pos (by rw [htext]; exact leadsWith_append_self _ _)]
  have hps : pySplit2 "---" (write_response [("id", Val.s i), ("from", Val.s fr),
      ("for", Val.s f), ("action", Val.s a), ("payload", Val.m p)]) =
      [String.mk [], String.mk ('\n' :: (interNl (scalarLine "action" a :: scalarLine "for" f ::
        scalarLine "from" fr :: scalarLine "id" i :: entryLines ("payload", Val.m p)) ++ ['\n'])),
       String.mk ('\n' :: '\n' :: ("Response to " ++ a).data)] := by
    have hs1' : splitOnce "---".data ("---".data ++ (('\n' :: (interNl (scalarLine "action" a ::
        scalarLine "for" f :: scalarLine "from" fr :: scalarLine "id" i ::
        entryLines ("payload", Val.m p)) ++ ['\n'])) ++
        ("---".data ++ ('\n' :: '\n' :: ("Response to " ++ a).data)))) =
        some ([], ('\n' :: (interNl (scalarLine "action" a :: scalarLine "for" f ::
          scalarLine "from" fr :: scalarLine "id" i :: entryLines ("payload", Val.m p)) ++
          ['\n'])) ++ ("---".data ++ ('\n' :: '\n' :: ("Response to " ++ a).data))) := by
      have h0 := hs1
      simp only [List.nil_append, List.append_assoc] at h0 ⊢
      exact h0
    have hs2' : splitOnce "---".data (('\n' :: (interNl (scalarLine "action" a ::
        scalarLine "for" f :: scalarLine "from" fr :: scalarLine "id" i ::
        entryLines ("payload", Val.m p)) ++ ['\n'])) ++
        ("---".data ++ ('\n' :: '\n' :: ("Response to " ++ a).data))) =
        some ('\n' :: (interNl (scalarLine "action" a :: scalarLine "for" f ::
          scalarLine "from" fr :: scalarLine "id" i :: entryLines ("payload", Val.m p)) ++
          ['\n']), '\n' :: '\n' :: ("Response to " ++ a).data) := by
      have h0 := hs2
      simp only [List.append_assoc] at h0 ⊢
      exact h0
    simp only [pySplit2, htext, hs1', hs2']
  simp only [hps, hparse]

/-- The response whose `action` value contains the document delimiter. -/
def c4resp : Msg :=
  [("id", Val.s "t1"), ("from", Val.s "jules"), ("for", Val.s "cc"),
   ("action", Val.s "x---y"), ("payload", Val.m [("status", "ok")])]

/-- C4: counterexample. For a response whose `action` value contains `---`,
serializing and re-parsing does not preserve the `action` field: the split
on the delimiter cuts the value, and the re-parsed action is `x`. -/
theorem C4_counterexample :
    aget c4resp "action" = some (.s "x---y") ∧
    aget ((read_message "tz" (write_response c4resp)).getD []) "action" = some (.s "x") ∧
    some (Val.s "x") ≠ some (Val.s "x---y") := by
  refine ⟨by decide, by decide, by decide⟩

/-- C4 (amended): for a response with the program's five fields whose values
contain no newline and no `---`, and whose payload is a mapping with
distinct well-formed keys and such values, serializing via the write path
and re-parsing via the read path preserves the `action`, `from`, `for` and
`id` fields exactly. -/
theorem C4_roundtrip (tR a f fr i : String) (p : List (String × String))
    (ha : wfVal a = true) (hf : wfVal f = true) (hfr : wfVal fr = true) (hi : wfVal i = true)
    (hp : ∀ e ∈ p, wfKey e.1 = true ∧ wfVal e.2 = true)
    (hnd : p.Pairwise (fun e e2 => e.1 ≠ e2.1)) :
    (read_message tR (write_response
      [("id", Val.s i), ("from", Val.s fr), ("for", Val.s f), ("action", Val.s a),
       ("payload", Val.m p)])).isSome = true ∧
    aget ((read_message tR (write_response
      [("id", Val.s i), ("from", Val.s fr), ("for", Val.s f), ("action", Val.s a),
       ("payload", Val.m p)])).getD []) "action" = some (Val.s a) ∧
    aget ((read_message tR (write_response
      [("id", Val.s i), ("from", Val.s fr), ("for", Val.s f), ("action", Val.s a),
       ("payload", Val.m p)])).getD []) "from" = some (Val.s fr) ∧
    aget ((read_message tR (write_response
      [("id", Val.s i), ("from", Val.s fr), ("for", Val.s f), ("action", Val.s a),
       ("payload", Val.m p)])).getD []) "for" = some (Val.s f) ∧
    aget ((read_message tR (write_response
      [("id", Val.s i), ("from", Val.s fr), ("for", Val.s f), ("action", Val.s a),
       ("payload", Val.m p)])).getD []) "id" = some (Val.s i) := by
  rw [read_write_response tR a f fr i p ha hf hfr hi hp hnd]
  refine ⟨rfl, ?_, ?_, ?_, ?_⟩ <;> simp [aset, aget]

/-- Witness for C4 at a concrete response, with quoted and plain values. -/
theorem C4_roundtrip_witness :
    (read_message "tz" (write_response
      [("id", Val.s "2024-01-01T00:00:00+00:00"), ("from", Val.s "jules"),
       ("for", Val.s "cc"), ("action", Val.s "message_response"),
       ("payload", Val.m [("message", "Msg ack: 5 chars"), ("status", "received")])])).isSome
      = true ∧
    aget ((read_message "tz" (write_response
      [("id", Val.s "2024-01-01T00:00:00+00:00"), ("from", Val.s "jules"),
       ("for", Val.s "cc"), ("action", Val.s "message_response"),
       ("payload", Val.m [("message", "Msg ack: 5 chars"), ("status", "received")])])).getD [])
      "action" = some (Val.s "message_response") ∧
    aget ((read_message "tz" (write_response
      [("id", Val.s "2024-01-01T00:00:00+00:00"), ("from", Val.s "jules"),
       ("for", Val.s "cc"), ("action", Val.s "message_response"),
       ("payload", Val.m [("message", "Msg ack: 5 chars"), ("status", "received")])])).getD [])
      "from" = some (Val.s "jules") ∧
    aget ((read_message "tz" (write_response
      [("id", Val.s "2024-01-01T00:00:00+00:00"), ("from", Val.s "jules"),
       ("for", Val.s "cc"), ("action", Val.s "message_response"),
       ("payload", Val.m [("message", "Msg ack: 5 chars"), ("status", "received")])])).getD [])
      "for" = some (Val.s "cc") ∧
    aget ((read_message "tz" (write_response
      [("id", Val.s "2024-01-01T00:00:00+00:00"), ("from", Val.s "jules"),
       ("for", Val.s "cc"), ("action", Val.s "message_response"),
       ("payload", Val.m [("message", "Msg ack: 5 chars"), ("status", "received")])])).getD [])
      "id" = some (Val.s "2024-01-01T00:00:00+00:00") :=
  C4_roundtrip "tz" "message_response" "cc" "jules" "2024-01-01T00:00:00+00:00"
    [("message", "Msg ack: 5 chars"), ("status", "received")]
    (by decide) (by decide) (by decide) (by decide) (by decide) (by decide)

end Jules
